import Mathlib

/-!
Shallow embedding of `ai-agency-platform/automation/scheduler/task_scheduler.py`.

Conventions of the embedding:
* `datetime` values are modelled as `Int` epoch timestamps; `isoformat` /
  `fromisoformat` are an inverse pair in the Python standard library, so a
  serialized datetime is carried as its timestamp (`JVal.jint`).
* Python status strings ("scheduled", "running", "completed", "failed",
  "cancelled") are kept as `String`, exactly as the source stores them.
* JSON dictionaries are association lists `List (String × JVal)`; `params`
  payloads are string-to-string maps, handler results are strings.
* The fallible `Task.from_dict` (KeyError / parse failure) returns `Option`.
* The asyncio event loop is modelled as an explicit step relation: each
  scheduler operation (or resumption segment of a coroutine between await
  points) is an event applied to a scheduler state.  `running_tasks` keeps
  only its key set; the per-runner lifecycle is split into `pending`
  (runner created by the worker, body of `_execute_task` not yet entered)
  and `inflight` (handler invocation in progress).  Cancellation delivery
  (the runner's CancelledError and its `finally` block) is merged into the
  atomic `cancel` / `shutdown` step that triggers it.
-/

namespace TaskSchedulerModel

/-- JSON-ish values appearing in a serialized task dictionary. -/
inductive JVal where
  | jstr (s : String)
  | jint (n : Int)
  | jnull
  | jmap (m : List (String × String))
deriving DecidableEq, Repr

/-- Mirror of the `Task` class attributes (constructor arguments plus the
runtime attributes initialised in `Task.__init__`). -/
structure Task where
  task_id : String
  task_type : String
  params : List (String × String)
  schedule_time : Int
  priority : Int
  max_retries : Nat
  retry_delay : Nat
  timeout : Nat
  callback_url : Option String
  status : String
  retry_count : Nat
  start_time : Option Int
  end_time : Option Int
  result : Option String
  error : Option String
deriving DecidableEq, Repr

/-- Constructor arguments of `Task.__init__` (the caller-supplied part). -/
structure CtorArgs where
  task_id : String
  task_type : String
  params : List (String × String)
  schedule_time : Int
  priority : Int
  max_retries : Nat
  retry_delay : Nat
  timeout : Nat
  callback_url : Option String
deriving DecidableEq, Repr

/-- `Task.__init__`: caller fields plus the fixed runtime defaults
(`status = "scheduled"`, `retry_count = 0`, everything else `None`). -/
def mkTask (a : CtorArgs) : Task :=
  { task_id := a.task_id
    task_type := a.task_type
    params := a.params
    schedule_time := a.schedule_time
    priority := a.priority
    max_retries := a.max_retries
    retry_delay := a.retry_delay
    timeout := a.timeout
    callback_url := a.callback_url
    status := "scheduled"
    retry_count := 0
    start_time := none
    end_time := none
    result := none
    error := none }

/-- Encoding of an optional string field (`None` serializes to JSON null). -/
def joptStr : Option String → JVal
  | some s => JVal.jstr s
  | none => JVal.jnull

/-- Encoding of an optional datetime field (`x.isoformat() if x else None`). -/
def joptTime : Option Int → JVal
  | some n => JVal.jint n
  | none => JVal.jnull

/-- `Task.to_dict`: the serialized dictionary, keys in source order. -/
def Task.to_dict (t : Task) : List (String × JVal) :=
  [ ("task_id", JVal.jstr t.task_id)
  , ("task_type", JVal.jstr t.task_type)
  , ("params", JVal.jmap t.params)
  , ("schedule_time", JVal.jint t.schedule_time)
  , ("priority", JVal.jint t.priority)
  , ("max_retries", JVal.jint (t.max_retries : Int))
  , ("retry_delay", JVal.jint (t.retry_delay : Int))
  , ("timeout", JVal.jint (t.timeout : Int))
  , ("callback_url", joptStr t.callback_url)
  , ("status", JVal.jstr t.status)
  , ("retry_count", JVal.jint (t.retry_count : Int))
  , ("start_time", joptTime t.start_time)
  , ("end_time", joptTime t.end_time)
  , ("result", joptStr t.result)
  , ("error", joptStr t.error) ]

/-- Dictionary lookup (`data[k]` / `data.get(k)`). -/
def jget (k : String) : List (String × JVal) → Option JVal
  | [] => none
  | (k', v) :: rest => if k' = k then some v else jget k rest

/-- Projection to a string value. -/
def asStr : JVal → Option String
  | JVal.jstr s => some s
  | _ => none

/-- Projection to an integer value. -/
def asInt : JVal → Option Int
  | JVal.jint n => some n
  | _ => none

/-- Projection to a nonnegative integer value. -/
def asNat (v : JVal) : Option Nat :=
  match asInt v with
  | some n => if 0 ≤ n then some n.toNat else none
  | none => none

/-- Projection to a params map. -/
def asMap : JVal → Option (List (String × String))
  | JVal.jmap m => some m
  | _ => none

/-- `data.get(k, d)` for an integer field with default. -/
def jgetIntD (k : String) (d : List (String × JVal)) (dflt : Int) : Option Int :=
  match jget k d with
  | none => some dflt
  | some v => asInt v

/-- `data.get(k, d)` for a nonnegative integer field with default. -/
def jgetNatD (k : String) (d : List (String × JVal)) (dflt : Nat) : Option Nat :=
  match jget k d with
  | none => some dflt
  | some v => asNat v

/-- `data.get(k)` for an optional string field (absent or null gives `None`). -/
def jgetOptStr (k : String) (d : List (String × JVal)) : Option String :=
  match jget k d with
  | some (JVal.jstr s) => some s
  | _ => none

/-- `data.get(k)` for an optional datetime field: `if data.get(k):` keeps the
value only when present and non-null (a serialized datetime is a non-empty,
hence truthy, string). -/
def jgetOptTime (k : String) (d : List (String × JVal)) : Option Int :=
  match jget k d with
  | some (JVal.jint n) => some n
  | _ => none

/-- `Task.from_dict`: rebuild a task from a serialized dictionary.  The four
required keys (`data[...]` indexing) and a malformed `schedule_time`
(`datetime.fromisoformat` raising) make it fallible. -/
def Task.from_dict (d : List (String × JVal)) : Option Task :=
  match jget "task_id" d >>= asStr with
  | none => none
  | some tid =>
  match jget "task_type" d >>= asStr with
  | none => none
  | some tty =>
  match jget "params" d >>= asMap with
  | none => none
  | some ps =>
  match jget "schedule_time" d >>= asInt with
  | none => none
  | some st =>
  match jgetIntD "priority" d 1 with
  | none => none
  | some pri =>
  match jgetNatD "max_retries" d 3 with
  | none => none
  | some mr =>
  match jgetNatD "retry_delay" d 300 with
  | none => none
  | some rd =>
  match jgetNatD "timeout" d 3600 with
  | none => none
  | some tmo =>
  match jgetNatD "retry_count" d 0 with
  | none => none
  | some rc =>
  some
    { task_id := tid
      task_type := tty
      params := ps
      schedule_time := st
      priority := pri
      max_retries := mr
      retry_delay := rd
      timeout := tmo
      callback_url := jgetOptStr "callback_url" d
      status := (match jget "status" d with
                 | some (JVal.jstr s) => s
                 | _ => "scheduled")
      retry_count := rc
      start_time := jgetOptTime "start_time" d
      end_time := jgetOptTime "end_time" d
      result := jgetOptStr "result" d
      error := jgetOptStr "error" d }

/-- A ready-queue entry: the `(priority, schedule_time.timestamp(), task_id)`
tuple pushed by `schedule_task`, retry rescheduling, and requeueing. -/
structure Entry where
  pri : Int
  time : Int
  id : String
deriving DecidableEq, Repr

/-- Strict ordering of queue entries: Python tuple comparison, i.e. ascending
priority, tie-broken by ascending timestamp, tie-broken by ascending id. -/
def entryLt (a b : Entry) : Prop :=
  a.pri < b.pri ∨ (a.pri = b.pri ∧ (a.time < b.time ∨ (a.time = b.time ∧ a.id < b.id)))

instance entryLtDec (a b : Entry) : Decidable (entryLt a b) := by
  unfold entryLt; infer_instance

/-- Non-strict entry ordering. -/
def entryLe (a b : Entry) : Prop := entryLt a b ∨ a = b

/-- One fold step of the minimum computation of a binary heap. -/
def pickMin (a b : Entry) : Entry := if entryLt b a then b else a

/-- `heappop` head selection: the least entry of the queue (`None` if empty). -/
def popMin : List Entry → Option Entry
  | [] => none
  | e :: es => some (es.foldl pickMin e)

/-- Remove the first occurrence of an entry (consuming the popped entry). -/
def erase1 (e : Entry) : List Entry → List Entry
  | [] => []
  | x :: xs => if x = e then xs else x :: erase1 e xs

/-- Remove the first occurrence of an id from an id list. -/
def eraseId (id : String) : List String → List String
  | [] => []
  | x :: xs => if x = id then xs else x :: eraseId id xs

/-- Dictionary lookup in the task map (`self.tasks.get(task_id)`). -/
def alookup (id : String) : List (String × Task) → Option Task
  | [] => none
  | (k, t) :: rest => if k = id then some t else alookup id rest

/-- Dictionary assignment `self.tasks[task_id] = task`: replaces in place if
the key exists (keeping its position, as a Python dict does), else appends. -/
def upsert (id : String) (t : Task) : List (String × Task) → List (String × Task)
  | [] => [(id, t)]
  | (k, v) :: rest => if k = id then (id, t) :: rest else (k, v) :: upsert id t rest

/-- Number of queue entries carrying a given task id. -/
def qCount (id : String) (q : List Entry) : Nat :=
  (q.filter (fun e => e.id = id)).length

/-- Number of occurrences of an id in an id list. -/
def idCount (id : String) (l : List String) : Nat :=
  (l.filter (fun x => x = id)).length

/-- Dictionary key insertion for `running_tasks` (re-inserting an existing
key overwrites its value and keeps the key set unchanged). -/
def pushId (id : String) (l : List String) : List String :=
  if id ∈ l then l else l ++ [id]

/-- Key list of the task map. -/
def keys (ts : List (String × Task)) : List String := ts.map Prod.fst

/-- The whole `TaskScheduler` state.  `running` is the key set of
`running_tasks`; `pending` are runner coroutines created by the worker whose
`_execute_task` body has not started; `inflight` are runners whose handler
invocation is in progress; `saved` is the last persisted snapshot; and
`callbacks` logs every callback notification posted by `_send_callback`. -/
structure SchedState where
  tasks : List (String × Task)
  queue : List Entry
  maxConc : Nat
  running : List String
  handlers : List String
  isRunning : Bool
  saved : List (String × List (String × JVal))
  pending : List String
  inflight : List String
  callbacks : List (List (String × JVal))
deriving DecidableEq, Repr

/-- Serialized snapshot of the task map (`save_tasks` payload). -/
def dumpTasks (ts : List (String × Task)) : List (String × List (String × JVal)) :=
  ts.map (fun p => (p.1, p.2.to_dict))

/-- `save_tasks`: persist the current task map. -/
def doSave (s : SchedState) : SchedState := { s with saved := dumpTasks s.tasks }

/-- The queue entry built from a task's current fields. -/
def mkEntry (t : Task) : Entry :=
  { pri := t.priority, time := t.schedule_time, id := t.task_id }

/-- `TaskScheduler.schedule_task`: store the task (replacing any task with
the same id), push a queue entry, save, and return the id. -/
def scheduleTask (s : SchedState) (t : Task) : String × SchedState :=
  (t.task_id,
   doSave { s with tasks := upsert t.task_id t s.tasks, queue := s.queue ++ [mkEntry t] })

/-- `TaskScheduler.cancel_task`, with delivery of the runner's cancellation
(the CancelledError and its `finally` block) merged into the same step:
an in-flight runner's finally sets `end_time`, deletes the id from
`running_tasks` and saves; a created-but-unstarted runner is cancelled
before its body runs, so its finally never executes and the id stays in
`running_tasks`. -/
def cancelTask (s : SchedState) (id : String) (now : Int) : Bool × SchedState :=
  match alookup id s.tasks with
  | none => (false, s)
  | some t =>
    if t.status = "scheduled" ∨ t.status = "running" then
      if id ∈ s.inflight then
        (true, doSave { s with
          tasks := upsert id { t with status := "cancelled", end_time := some now } s.tasks,
          inflight := eraseId id s.inflight,
          running := eraseId id s.running })
      else if id ∈ s.pending then
        (true, doSave { s with
          tasks := upsert id { t with status := "cancelled" } s.tasks,
          pending := eraseId id s.pending })
      else
        (true, doSave { s with tasks := upsert id { t with status := "cancelled" } s.tasks })
    else (false, s)

/-- One iteration of `TaskScheduler._worker`: backpressure check, pop, task
lookup, cancelled-entry drop, readiness check with requeue, or dispatch
(create the runner and track it in `running_tasks`).  The worker does not
touch the task's status when dispatching. -/
def dispatchStep (s : SchedState) (now : Int) : SchedState :=
  if s.isRunning = false then s
  else if s.maxConc ≤ s.running.length then s
  else match popMin s.queue with
  | none => s
  | some e =>
    let q' := erase1 e s.queue
    match alookup e.id s.tasks with
    | none => { s with queue := q' }
    | some t =>
      if t.status = "cancelled" then { s with queue := q' }
      else if now < t.schedule_time then
        { s with queue := q' ++ [mkEntry t] }
      else
        { s with queue := q',
                 running := pushId e.id s.running,
                 pending := s.pending ++ [e.id] }

/-- The error message of the missing-handler branch. -/
def noHandlerMsg (t : Task) : String :=
  "No handler registered for task type: " ++ t.task_type

/-- Entry of `_execute_task` up to the handler invocation: the
missing-handler early return (which skips the try/finally, leaving the id
in `running_tasks` and sending no callback), or marking the task running
and recording `start_time`. -/
def execStart (s : SchedState) (id : String) (now : Int) : SchedState :=
  if id ∈ s.pending then
    match alookup id s.tasks with
    | none => { s with pending := eraseId id s.pending }
    | some t =>
      if t.task_type ∈ s.handlers then
        doSave { s with
          tasks := upsert id { t with status := "running", start_time := some now } s.tasks,
          pending := eraseId id s.pending,
          inflight := s.inflight ++ [id] }
      else
        doSave { s with
          tasks := upsert id { t with status := "failed", error := some (noHandlerMsg t) } s.tasks,
          pending := eraseId id s.pending }
  else s

/-- Outcome of an attempted handler invocation. -/
inductive Outcome where
  | success (v : String)
  | timeout
  | failure (msg : String)
deriving DecidableEq, Repr

/-- The error message of the timeout branch. -/
def timeoutMsg (t : Task) : String :=
  "Task execution timed out after " ++ toString t.timeout ++ " seconds"

/-- Python truthiness of the optional callback url (`if task.callback_url`). -/
def truthyStr : Option String → Bool
  | some s => !s.isEmpty
  | none => false

/-- Outcome classification of `_execute_task`: success stores the result
(without clearing `error`); timeout or handler exception store the error
and, when `retry_count < max_retries`, increment `retry_count`, reset the
status to scheduled, move `schedule_time` forward by `retry_delay` and
produce a fresh queue entry. -/
def applyOutcome (t : Task) (oc : Outcome) (now : Int) : Task × Option Entry :=
  match oc with
  | Outcome.success v => ({ t with status := "completed", result := some v }, none)
  | Outcome.timeout =>
    let t1 := { t with status := "failed", error := some (timeoutMsg t) }
    if t1.retry_count < t1.max_retries then
      let t2 := { t1 with retry_count := t1.retry_count + 1, status := "scheduled",
                          schedule_time := now + (t1.retry_delay : Int) }
      (t2, some (mkEntry t2))
    else (t1, none)
  | Outcome.failure msg =>
    let t1 := { t with status := "failed", error := some msg }
    if t1.retry_count < t1.max_retries then
      let t2 := { t1 with retry_count := t1.retry_count + 1, status := "scheduled",
                          schedule_time := now + (t1.retry_delay : Int) }
      (t2, some (mkEntry t2))
    else (t1, none)

/-- Resumption of `_execute_task` after the handler invocation resolves:
outcome classification, retry handling, then the finally block (`end_time`,
removal from `running_tasks`, save) and the callback notification for a
terminal completed/failed status with a truthy callback url. -/
def execFinish (s : SchedState) (id : String) (oc : Outcome) (now : Int) : SchedState :=
  if id ∈ s.inflight then
    match alookup id s.tasks with
    | none => { s with inflight := eraseId id s.inflight }
    | some t =>
      let r := applyOutcome t oc now
      let t2 := { r.1 with end_time := some now }
      doSave { s with
        tasks := upsert id t2 s.tasks,
        queue := (match r.2 with | some e => s.queue ++ [e] | none => s.queue),
        inflight := eraseId id s.inflight,
        running := eraseId id s.running,
        callbacks :=
          if truthyStr t2.callback_url = true ∧ (t2.status = "completed" ∨ t2.status = "failed")
          then s.callbacks ++ [t2.to_dict] else s.callbacks }
  else s

/-- `shutdown` loop body: mark a task cancelled (by id, unconditionally). -/
def setCancelled (ts : List (String × Task)) (id : String) : List (String × Task) :=
  match alookup id ts with
  | none => ts
  | some t => upsert id { t with status := "cancelled" } ts

/-- The finally block of a runner torn down by shutdown's gather. -/
def setEnded (now : Int) (ts : List (String × Task)) (id : String) : List (String × Task) :=
  match alookup id ts with
  | none => ts
  | some t => upsert id { t with end_time := some now } ts

/-- `TaskScheduler.shutdown`: stop the worker, cancel every tracked runner
and mark its task cancelled, let the in-flight runners' finally blocks run
(created-but-unstarted runners never run, so their ids stay in
`running_tasks`), and save the final state. -/
def shutdownStep (s : SchedState) (now : Int) : SchedState :=
  let tasks1 := s.running.foldl setCancelled s.tasks
  let tasks2 := s.inflight.foldl (setEnded now) tasks1
  doSave { s with
    isRunning := false,
    tasks := tasks2,
    running := s.inflight.foldl (fun l id => eraseId id l) s.running,
    pending := [],
    inflight := [] }

/-- `TaskScheduler.load_tasks`: rebuild each task from storage, re-enqueue
exactly those whose persisted status is "scheduled"; a deserialization
failure aborts the remaining entries but keeps those already loaded. -/
def loadTasks (s : SchedState) : List (String × List (String × JVal)) → SchedState
  | [] => s
  | (id, d) :: rest =>
    match Task.from_dict d with
    | none => s
    | some t =>
      loadTasks { s with
        tasks := upsert id t s.tasks,
        queue := if t.status = "scheduled" then s.queue ++ [mkEntry t] else s.queue } rest

/-- Events of the scheduler's step relation: public API calls, worker
iterations, and the resumption segments of runner coroutines. -/
inductive Ev where
  | start
  | schedule (a : CtorArgs)
  | cancel (id : String) (now : Int)
  | dispatch (now : Int)
  | execBegin (id : String) (now : Int)
  | execEnd (id : String) (oc : Outcome) (now : Int)
  | shutdown (now : Int)
deriving DecidableEq, Repr

/-- Apply one event to the scheduler state. -/
def applyEv (e : Ev) (s : SchedState) : SchedState :=
  match e with
  | Ev.start => { s with isRunning := true }
  | Ev.schedule a => (scheduleTask s (mkTask a)).2
  | Ev.cancel id now => (cancelTask s id now).2
  | Ev.dispatch now => dispatchStep s now
  | Ev.execBegin id now => execStart s id now
  | Ev.execEnd id oc now => execFinish s id oc now
  | Ev.shutdown now => shutdownStep s now

/-- Run a list of events from a state. -/
def runFrom (s : SchedState) : List Ev → SchedState
  | [] => s
  | e :: evs => runFrom (applyEv e s) evs

/-- The empty scheduler with concurrency bound `n` and handler registry
`hs` (constructed with no storage file, before `start()`). -/
def initState (n : Nat) (hs : List String) : SchedState :=
  { tasks := [], queue := [], maxConc := n, running := [], handlers := hs,
    isRunning := false, saved := [], pending := [], inflight := [], callbacks := [] }

/-- Run a list of events from the empty scheduler. -/
def run (n : Nat) (hs : List String) (evs : List Ev) : SchedState :=
  runFrom (initState n hs) evs

/-- The task ids of the schedule events of a trace. -/
def schedIds : List Ev → List String
  | [] => []
  | Ev.schedule a :: evs => a.task_id :: schedIds evs
  | _ :: evs => schedIds evs

/-- Well-formed continuation: schedule events introduce pairwise distinct,
fresh task ids. -/
@[reducible] def FreshEvs (s : SchedState) (evs : List Ev) : Prop :=
  (schedIds evs).Nodup ∧ ∀ id ∈ schedIds evs, id ∉ keys s.tasks

/-! ### Basic lemmas about the list-level operations -/

theorem keys_nil : keys ([] : List (String × Task)) = [] := rfl

theorem keys_cons (k : String) (v : Task) (ts : List (String × Task)) :
    keys ((k, v) :: ts) = k :: keys ts := rfl

theorem alookup_upsert_self (ts : List (String × Task)) (id : String) (t : Task) :
    alookup id (upsert id t ts) = some t := by
  induction ts with
  | nil => simp [upsert, alookup]
  | cons p rest ih =>
    obtain ⟨k, v⟩ := p
    by_cases h : k = id
    · simp [upsert, h, alookup]
    · simp [upsert, h, alookup, ih]

theorem alookup_upsert_ne (ts : List (String × Task)) (id k : String) (t : Task)
    (h : k ≠ id) : alookup k (upsert id t ts) = alookup k ts := by
  have hid : ¬ id = k := fun hh => h hh.symm
  induction ts with
  | nil => simp [upsert, alookup, hid]
  | cons p rest ih =>
    obtain ⟨k', v⟩ := p
    by_cases h' : k' = id
    · subst h'
      simp [upsert, alookup, hid]
    · by_cases h'' : k' = k
      · simp [upsert, h', alookup, h'', h]
      · simp [upsert, h', alookup, h'', ih]

theorem mem_keys_iff_alookup (ts : List (String × Task)) (id : String) :
    id ∈ keys ts ↔ ∃ t, alookup id ts = some t := by
  induction ts with
  | nil => simp [keys, alookup]
  | cons p rest ih =>
    obtain ⟨k, v⟩ := p
    rw [keys_cons, List.mem_cons]
    by_cases h : k = id
    · subst h
      simp [alookup]
    · simp only [alookup, if_neg h]
      constructor
      · intro hc
        rcases hc with h' | h'
        · exact absurd h'.symm h
        · exact ih.1 h'
      · intro hc
        exact Or.inr (ih.2 hc)

theorem alookup_mem_keys (ts : List (String × Task)) (id : String) (t : Task)
    (h : alookup id ts = some t) : id ∈ keys ts :=
  (mem_keys_iff_alookup ts id).2 ⟨t, h⟩

theorem alookup_of_not_mem_keys (ts : List (String × Task)) (id : String)
    (h : id ∉ keys ts) : alookup id ts = none := by
  cases hl : alookup id ts with
  | none => rfl
  | some t => exact absurd (alookup_mem_keys ts id t hl) h

theorem keys_upsert_of_mem (ts : List (String × Task)) (id : String) (t : Task)
    (h : id ∈ keys ts) : keys (upsert id t ts) = keys ts := by
  induction ts with
  | nil => simp [keys] at h
  | cons p rest ih =>
    obtain ⟨k, v⟩ := p
    by_cases h' : k = id
    · subst h'
      simp [upsert, keys_cons]
    · rw [keys_cons, List.mem_cons] at h
      have hr : id ∈ keys rest := by
        rcases h with h'' | h''
        · exact absurd h''.symm h'
        · exact h''
      simp only [upsert, if_neg h', keys_cons, ih hr]

theorem keys_upsert_of_not_mem (ts : List (String × Task)) (id : String) (t : Task)
    (h : id ∉ keys ts) : keys (upsert id t ts) = keys ts ++ [id] := by
  induction ts with
  | nil => simp [upsert, keys]
  | cons p rest ih =>
    obtain ⟨k, v⟩ := p
    have hk : ¬ k = id := fun hh => h (by rw [keys_cons, hh]; exact List.mem_cons_self id (keys rest))
    have hr : id ∉ keys rest := fun hh => h (by rw [keys_cons]; exact List.mem_cons_of_mem k hh)
    simp only [upsert, if_neg hk, keys_cons, ih hr, List.cons_append]

theorem keys_upsert_nodup (ts : List (String × Task)) (id : String) (t : Task)
    (h : (keys ts).Nodup) : (keys (upsert id t ts)).Nodup := by
  by_cases hm : id ∈ keys ts
  · rw [keys_upsert_of_mem ts id t hm]; exact h
  · rw [keys_upsert_of_not_mem ts id t hm]
    simpa [List.nodup_append] using ⟨h, hm⟩

theorem mem_keys_upsert (ts : List (String × Task)) (id k : String) (t : Task)
    (h : k ∈ keys (upsert id t ts)) : k ∈ keys ts ∨ k = id := by
  by_cases hm : id ∈ keys ts
  · rw [keys_upsert_of_mem ts id t hm] at h; exact Or.inl h
  · rw [keys_upsert_of_not_mem ts id t hm] at h
    rcases List.mem_append.1 h with h' | h'
    · exact Or.inl h'
    · exact Or.inr (by simpa using h')

theorem mem_keys_upsert_of_mem (ts : List (String × Task)) (id k : String) (t : Task)
    (h : k ∈ keys ts) : k ∈ keys (upsert id t ts) := by
  by_cases hm : id ∈ keys ts
  · rw [keys_upsert_of_mem ts id t hm]; exact h
  · rw [keys_upsert_of_not_mem ts id t hm]
    exact List.mem_append_left _ h

theorem mem_of_mem_eraseId (l : List String) (id x : String)
    (h : x ∈ eraseId id l) : x ∈ l := by
  induction l with
  | nil => simpa [eraseId] using h
  | cons a rest ih =>
    by_cases h' : a = id
    · simp only [eraseId, if_pos h'] at h
      exact List.mem_cons_of_mem a h
    · simp only [eraseId, if_neg h'] at h
      rcases List.mem_cons.1 h with h'' | h''
      · simp [h'']
      · exact List.mem_cons_of_mem a (ih h'')

theorem eraseId_nodup (l : List String) (id : String) (h : l.Nodup) :
    (eraseId id l).Nodup := by
  induction l with
  | nil => simpa [eraseId] using h
  | cons a rest ih =>
    rcases List.nodup_cons.1 h with ⟨ha, hrest⟩
    by_cases h' : a = id
    · simpa [eraseId, h'] using hrest
    · simp only [eraseId, if_neg h']
      exact List.nodup_cons.2 ⟨fun hc => ha (mem_of_mem_eraseId rest id a hc), ih hrest⟩

theorem not_mem_eraseId_self (l : List String) (id : String) (h : l.Nodup) :
    id ∉ eraseId id l := by
  induction l with
  | nil => simp [eraseId]
  | cons a rest ih =>
    rcases List.nodup_cons.1 h with ⟨ha, hrest⟩
    by_cases h' : a = id
    · subst h'
      simpa [eraseId] using ha
    · simp only [eraseId, if_neg h']
      intro hc
      rcases List.mem_cons.1 hc with h'' | h''
      · exact h' h''.symm
      · exact ih hrest h''

theorem mem_eraseId_of_ne (l : List String) (id x : String)
    (hx : x ∈ l) (hne : x ≠ id) : x ∈ eraseId id l := by
  induction l with
  | nil => simp at hx
  | cons a rest ih =>
    by_cases h' : a = id
    · subst h'
      rcases List.mem_cons.1 hx with h'' | h''
      · exact absurd h'' hne
      · simpa [eraseId] using h''
    · rcases List.mem_cons.1 hx with h'' | h''
      · simp [eraseId, h', h'']
      · simp only [eraseId, if_neg h']
        exact List.mem_cons_of_mem a (ih h'')

theorem length_eraseId_le (l : List String) (id : String) :
    (eraseId id l).length ≤ l.length := by
  induction l with
  | nil => simp [eraseId]
  | cons a rest ih =>
    by_cases h' : a = id
    · simp only [eraseId, if_pos h', List.length_cons]
      omega
    · simp only [eraseId, if_neg h', List.length_cons]
      omega

theorem mem_pushId (l : List String) (id x : String) :
    x ∈ pushId id l ↔ x ∈ l ∨ x = id := by
  unfold pushId
  by_cases h : id ∈ l
  · rw [if_pos h]
    constructor
    · exact Or.inl
    · intro hx
      rcases hx with hx | hx
      · exact hx
      · rw [hx]; exact h
  · rw [if_neg h]
    simp [List.mem_append]

theorem pushId_nodup (l : List String) (id : String) (h : l.Nodup) :
    (pushId id l).Nodup := by
  unfold pushId
  by_cases hm : id ∈ l
  · rw [if_pos hm]; exact h
  · rw [if_neg hm]
    simpa [List.nodup_append] using ⟨h, hm⟩

theorem length_pushId_le (l : List String) (id : String) (n : Nat) (h : l.length < n) :
    (pushId id l).length ≤ n := by
  unfold pushId
  by_cases hm : id ∈ l
  · rw [if_pos hm]; omega
  · rw [if_neg hm]
    simp only [List.length_append, List.length_singleton]
    omega

theorem idCount_append (id : String) (l1 l2 : List String) :
    idCount id (l1 ++ l2) = idCount id l1 + idCount id l2 := by
  simp [idCount, List.filter_append]

theorem idCount_cons (id a : String) (l : List String) :
    idCount id (a :: l) = (if a = id then 1 else 0) + idCount id l := by
  by_cases h : a = id <;> simp [idCount, List.filter_cons, h] <;> omega

theorem idCount_eq_zero_iff (id : String) (l : List String) :
    idCount id l = 0 ↔ id ∉ l := by
  induction l with
  | nil => simp [idCount]
  | cons a rest ih =>
    rw [idCount_cons, List.mem_cons]
    by_cases h : a = id
    · simp [h]
    · simp only [if_neg h]
      constructor
      · intro hz hc
        rcases hc with hc | hc
        · exact h hc.symm
        · exact (ih.1 (by omega)) hc
      · intro hc
        have : id ∉ rest := fun hh => hc (Or.inr hh)
        simp [ih.2 this]

theorem idCount_eraseId_self (l : List String) (id : String) (h : id ∈ l) :
    idCount id (eraseId id l) + 1 = idCount id l := by
  induction l with
  | nil => simp at h
  | cons a rest ih =>
    by_cases h' : a = id
    · simp only [eraseId, if_pos h', idCount_cons, if_pos h']
      omega
    · have hr : id ∈ rest := by
        rcases List.mem_cons.1 h with hh | hh
        · exact absurd hh.symm h'
        · exact hh
      simp only [eraseId, if_neg h', idCount_cons, if_neg h']
      have := ih hr
      omega

theorem idCount_eraseId_le (l : List String) (id x : String) :
    idCount x (eraseId id l) ≤ idCount x l := by
  induction l with
  | nil => simp [eraseId]
  | cons a rest ih =>
    by_cases h' : a = id
    · simp only [eraseId, if_pos h', idCount_cons]
      by_cases hx : a = x <;> omega
    · simp only [eraseId, if_neg h', idCount_cons]
      omega

theorem qCount_append (id : String) (q1 q2 : List Entry) :
    qCount id (q1 ++ q2) = qCount id q1 + qCount id q2 := by
  simp [qCount, List.filter_append]

theorem qCount_cons (id : String) (e : Entry) (q : List Entry) :
    qCount id (e :: q) = (if e.id = id then 1 else 0) + qCount id q := by
  by_cases h : e.id = id <;> simp [qCount, List.filter_cons, h] <;> omega

theorem qCount_eq_zero_iff (id : String) (q : List Entry) :
    qCount id q = 0 ↔ ∀ e ∈ q, e.id ≠ id := by
  induction q with
  | nil => simp [qCount]
  | cons e rest ih =>
    rw [qCount_cons]
    by_cases h : e.id = id
    · simp only [if_pos h]
      constructor
      · intro hz
        omega
      · intro hc
        exact absurd h (hc e (List.mem_cons_self e rest))
    · simp only [if_neg h, Nat.zero_add]
      constructor
      · intro hz x hx
        rcases List.mem_cons.1 hx with hh | hh
        · rw [hh]; exact h
        · exact ih.1 hz x hh
      · intro hc
        exact ih.2 fun x hx => hc x (List.mem_cons_of_mem e hx)

theorem mem_of_mem_erase1 (q : List Entry) (e x : Entry) (h : x ∈ erase1 e q) : x ∈ q := by
  induction q with
  | nil => simpa [erase1] using h
  | cons a rest ih =>
    by_cases h' : a = e
    · simp only [erase1, if_pos h'] at h
      exact List.mem_cons_of_mem a h
    · simp only [erase1, if_neg h'] at h
      rcases List.mem_cons.1 h with hh | hh
      · simp [hh]
      · exact List.mem_cons_of_mem a (ih hh)

theorem qCount_erase1_self (q : List Entry) (e : Entry) (h : e ∈ q) :
    qCount e.id (erase1 e q) + 1 = qCount e.id q := by
  induction q with
  | nil => simp at h
  | cons a rest ih =>
    by_cases h' : a = e
    · subst h'
      have e1 : erase1 a (a :: rest) = rest := by simp [erase1]
      rw [e1, qCount_cons, if_pos rfl]
      omega
    · have hr : e ∈ rest := by
        rcases List.mem_cons.1 h with hh | hh
        · exact absurd hh.symm h'
        · exact hh
      have e1 : erase1 e (a :: rest) = a :: erase1 e rest := by simp [erase1, h']
      rw [e1, qCount_cons, qCount_cons]
      have := ih hr
      omega

theorem qCount_erase1_le (q : List Entry) (e : Entry) (id : String) :
    qCount id (erase1 e q) ≤ qCount id q := by
  induction q with
  | nil => simp [erase1]
  | cons a rest ih =>
    by_cases h' : a = e
    · simp only [erase1, if_pos h', qCount_cons]
      omega
    · simp only [erase1, if_neg h', qCount_cons]
      omega

theorem qCount_erase1_ne (q : List Entry) (e : Entry) (id : String) (h : id ≠ e.id) :
    qCount id (erase1 e q) = qCount id q := by
  induction q with
  | nil => simp [erase1]
  | cons a rest ih =>
    by_cases h' : a = e
    · subst h'
      have e1 : erase1 a (a :: rest) = rest := by simp [erase1]
      rw [e1, qCount_cons, if_neg (fun hh : a.id = id => h hh.symm)]
      omega
    · have e1 : erase1 e (a :: rest) = a :: erase1 e rest := by simp [erase1, h']
      rw [e1, qCount_cons, qCount_cons, ih]

/-! ### The entry order -/

theorem entryLt_trans {a b c : Entry} (h1 : entryLt a b) (h2 : entryLt b c) :
    entryLt a c := by
  rcases h1 with h1 | ⟨e1, h1⟩
  · rcases h2 with h2 | ⟨e2, h2⟩
    · exact Or.inl (lt_trans h1 h2)
    · exact Or.inl (by omega)
  · rcases h2 with h2 | ⟨e2, h2⟩
    · exact Or.inl (by omega)
    · refine Or.inr ⟨by omega, ?_⟩
      rcases h1 with h1 | ⟨f1, h1⟩
      · rcases h2 with h2 | ⟨f2, h2⟩
        · exact Or.inl (lt_trans h1 h2)
        · exact Or.inl (by omega)
      · rcases h2 with h2 | ⟨f2, h2⟩
        · exact Or.inl (by omega)
        · exact Or.inr ⟨by omega, lt_trans h1 h2⟩

theorem entryLt_irrefl (a : Entry) : ¬ entryLt a a := by
  intro h
  rcases h with h | ⟨e, h⟩
  · exact lt_irrefl _ h
  · rcases h with h | ⟨f, h⟩
    · exact lt_irrefl _ h
    · exact lt_irrefl _ h

theorem entryLt_total (a b : Entry) : entryLt a b ∨ a = b ∨ entryLt b a := by
  rcases lt_trichotomy a.pri b.pri with h | h | h
  · exact Or.inl (Or.inl h)
  · rcases lt_trichotomy a.time b.time with h' | h' | h'
    · exact Or.inl (Or.inr ⟨h, Or.inl h'⟩)
    · rcases lt_trichotomy a.id b.id with h'' | h'' | h''
      · exact Or.inl (Or.inr ⟨h, Or.inr ⟨h', h''⟩⟩)
      · refine Or.inr (Or.inl ?_)
        cases a
        cases b
        simp_all
      · exact Or.inr (Or.inr (Or.inr ⟨h.symm, Or.inr ⟨h'.symm, h''⟩⟩))
    · exact Or.inr (Or.inr (Or.inr ⟨h.symm, Or.inl h'⟩))
  · exact Or.inr (Or.inr (Or.inl h))

theorem entryLe_refl (a : Entry) : entryLe a a := Or.inr rfl

theorem entryLe_of_not_lt {a b : Entry} (h : ¬ entryLt b a) : entryLe a b := by
  rcases entryLt_total a b with h' | h' | h'
  · exact Or.inl h'
  · exact Or.inr h'
  · exact absurd h' h

theorem entryLe_trans {a b c : Entry} (h1 : entryLe a b) (h2 : entryLe b c) :
    entryLe a c := by
  rcases h1 with h1 | rfl
  · rcases h2 with h2 | rfl
    · exact Or.inl (entryLt_trans h1 h2)
    · exact Or.inl h1
  · exact h2

theorem pickMin_le_left (a b : Entry) : entryLe (pickMin a b) a := by
  unfold pickMin
  by_cases h : entryLt b a
  · rw [if_pos h]; exact Or.inl h
  · rw [if_neg h]; exact entryLe_refl a

theorem pickMin_le_right (a b : Entry) : entryLe (pickMin a b) b := by
  unfold pickMin
  by_cases h : entryLt b a
  · rw [if_pos h]; exact entryLe_refl b
  · rw [if_neg h]; exact entryLe_of_not_lt h

theorem pickMin_cases (a b : Entry) : pickMin a b = a ∨ pickMin a b = b := by
  unfold pickMin
  by_cases h : entryLt b a
  · rw [if_pos h]; exact Or.inr rfl
  · rw [if_neg h]; exact Or.inl rfl

theorem foldl_pickMin_le (l : List Entry) (a : Entry) :
    entryLe (l.foldl pickMin a) a ∧ ∀ x ∈ l, entryLe (l.foldl pickMin a) x := by
  induction l generalizing a with
  | nil => exact ⟨entryLe_refl a, by simp⟩
  | cons b rest ih =>
    rcases ih (pickMin a b) with ⟨h1, h2⟩
    rw [List.foldl_cons]
    refine ⟨entryLe_trans h1 (pickMin_le_left a b), ?_⟩
    intro x hx
    rcases List.mem_cons.1 hx with hh | hh
    · rw [hh]
      exact entryLe_trans h1 (pickMin_le_right a b)
    · exact h2 x hh

theorem foldl_pickMin_mem (l : List Entry) (a : Entry) :
    l.foldl pickMin a = a ∨ l.foldl pickMin a ∈ l := by
  induction l generalizing a with
  | nil => exact Or.inl rfl
  | cons b rest ih =>
    rw [List.foldl_cons]
    rcases ih (pickMin a b) with h | h
    · rcases pickMin_cases a b with h' | h'
      · exact Or.inl (by rw [h, h'])
      · exact Or.inr (by rw [h, h']; exact List.mem_cons_self b rest)
    · exact Or.inr (List.mem_cons_of_mem b h)

theorem popMin_mem (q : List Entry) (e : Entry) (h : popMin q = some e) : e ∈ q := by
  cases q with
  | nil => simp [popMin] at h
  | cons a rest =>
    simp only [popMin, Option.some.injEq] at h
    rcases foldl_pickMin_mem rest a with h' | h'
    · rw [← h, h']
      exact List.mem_cons_self a rest
    · rw [← h]
      exact List.mem_cons_of_mem a h'

theorem popMin_min (q : List Entry) (e : Entry) (h : popMin q = some e) :
    ∀ x ∈ q, entryLe e x := by
  cases q with
  | nil => simp [popMin] at h
  | cons a rest =>
    simp only [popMin, Option.some.injEq] at h
    intro x hx
    rcases foldl_pickMin_le rest a with ⟨h1, h2⟩
    rcases List.mem_cons.1 hx with hh | hh
    · rw [← h, hh]
      exact h1
    · rw [← h]
      exact h2 x hh

theorem popMin_none_iff (q : List Entry) : popMin q = none ↔ q = [] := by
  cases q with
  | nil => simp [popMin]
  | cons a rest => simp [popMin]

/-! ### Derived observations -/

/-- Status of the task stored under an id. -/
def statusOf (s : SchedState) (id : String) : Option String :=
  (alookup id s.tasks).map Task.status

/-- C10: `schedule_task` never rejects or raises on a duplicate id: the
existing record is silently replaced by the new task, one more ready-queue
entry for that id is added alongside any existing ones, and the call still
returns the task id (the key set of the task map does not grow). -/
theorem schedule_duplicate_replaces (s : SchedState) (t : Task)
    (h : t.task_id ∈ keys s.tasks) :
    (scheduleTask s t).1 = t.task_id ∧
    alookup t.task_id (scheduleTask s t).2.tasks = some t ∧
    qCount t.task_id (scheduleTask s t).2.queue = qCount t.task_id s.queue + 1 ∧
    keys (scheduleTask s t).2.tasks = keys s.tasks := by
  refine ⟨rfl, ?_, ?_, ?_⟩
  · show alookup t.task_id (upsert t.task_id t s.tasks) = some t
    exact alookup_upsert_self s.tasks t.task_id t
  · show qCount t.task_id (s.queue ++ [mkEntry t]) = qCount t.task_id s.queue + 1
    rw [qCount_append, qCount_cons]
    have : (mkEntry t).id = t.task_id := rfl
    rw [this, if_pos rfl]
    rfl
  · exact keys_upsert_of_mem s.tasks t.task_id t h

/-- C7: `cancel_task` returns true and marks the task cancelled exactly when
a task with that id exists with status scheduled or running; it returns
false and leaves the state untouched otherwise; and the worker drops a
popped entry whose task is cancelled, removing it from the queue without
creating a runner (so the handler is never invoked for it). -/
theorem cancel_semantics (s : SchedState) (id : String) (now : Int) :
    ((cancelTask s id now).1 = true ↔
      ∃ t, alookup id s.tasks = some t ∧ (t.status = "scheduled" ∨ t.status = "running")) ∧
    ((cancelTask s id now).1 = false → (cancelTask s id now).2 = s) ∧
    ((cancelTask s id now).1 = true → statusOf (cancelTask s id now).2 id = some "cancelled") ∧
    (∀ (e : Entry) (t : Task), s.isRunning = true → s.running.length < s.maxConc →
      popMin s.queue = some e → alookup e.id s.tasks = some t → t.status = "cancelled" →
      dispatchStep s now = { s with queue := erase1 e s.queue }) := by
  refine ⟨?_, ?_, ?_, ?_⟩
  · cases hl : alookup id s.tasks with
    | none =>
      simp only [cancelTask, hl]
      constructor
      · intro hc
        exact absurd hc (by simp)
      · rintro ⟨t, ht, _⟩
        exact absurd ht (by simp [hl])
    | some t =>
      by_cases hst : t.status = "scheduled" ∨ t.status = "running"
      · simp only [cancelTask, hl, if_pos hst]
        constructor
        · intro _
          exact ⟨t, rfl, hst⟩
        · intro _
          by_cases h1 : id ∈ s.inflight
          · simp [h1]
          · by_cases h2 : id ∈ s.pending
            · simp [h1, h2]
            · simp [h1, h2]
      · simp only [cancelTask, hl, if_neg hst]
        constructor
        · intro hc
          exact absurd hc (by simp)
        · rintro ⟨t', ht', hs'⟩
          injection ht' with hEq
          subst hEq
          exact absurd hs' hst
  · cases hl : alookup id s.tasks with
    | none => intro _; simp [cancelTask, hl]
    | some t =>
      by_cases hst : t.status = "scheduled" ∨ t.status = "running"
      · intro hfalse
        exfalso
        by_cases h1 : id ∈ s.inflight
        · simp [cancelTask, hl, if_pos hst, h1] at hfalse
        · by_cases h2 : id ∈ s.pending
          · simp [cancelTask, hl, if_pos hst, h1, h2] at hfalse
          · simp [cancelTask, hl, if_pos hst, h1, h2] at hfalse
      · intro _
        simp [cancelTask, hl, if_neg hst]
  · cases hl : alookup id s.tasks with
    | none =>
      intro hc
      exact absurd hc (by simp [cancelTask, hl])
    | some t =>
      by_cases hst : t.status = "scheduled" ∨ t.status = "running"
      · intro _
        by_cases h1 : id ∈ s.inflight
        · simp only [cancelTask, hl, if_pos hst, if_pos h1, statusOf, doSave]
          rw [alookup_upsert_self]
          rfl
        · by_cases h2 : id ∈ s.pending
          · simp only [cancelTask, hl, if_pos hst, if_neg h1, if_pos h2, statusOf, doSave]
            rw [alookup_upsert_self]
            rfl
          · simp only [cancelTask, hl, if_pos hst, if_neg h1, if_neg h2, statusOf, doSave]
            rw [alookup_upsert_self]
            rfl
      · intro hc
        exact absurd hc (by simp [cancelTask, hl, if_neg hst])
  · intro e t hrun hcap hpop hl hst
    unfold dispatchStep
    rw [if_neg (by simp [hrun]), if_neg (Nat.not_le.2 hcap), hpop]
    simp only [hl, if_pos hst]

/-- C4: ready-queue entries are totally ordered by ascending priority,
tie-broken by ascending scheduled time, tie-broken by ascending id; popping
returns a minimum of this order; the worker consumes exactly the popped
minimum when it dispatches; and of two simultaneously eligible entries the
strictly larger one is never the one popped, so the smaller is dispatched
first. -/
theorem queue_order_dispatch :
    (∀ a b : Entry, a.pri < b.pri → entryLt a b) ∧
    (∀ a b : Entry, a.pri = b.pri → a.time < b.time → entryLt a b) ∧
    (∀ a b : Entry, a.pri = b.pri → a.time = b.time → (entryLt a b ↔ a.id < b.id)) ∧
    (∀ a b : Entry, entryLt a b ∨ a = b ∨ entryLt b a) ∧
    (∀ (q : List Entry) (e : Entry), popMin q = some e → e ∈ q ∧ ∀ x ∈ q, entryLe e x) ∧
    (∀ (s : SchedState) (now : Int) (e : Entry) (t : Task),
      s.isRunning = true → s.running.length < s.maxConc →
      popMin s.queue = some e → alookup e.id s.tasks = some t →
      t.status ≠ "cancelled" → t.schedule_time ≤ now →
      dispatchStep s now = { s with queue := erase1 e s.queue,
                                    running := pushId e.id s.running,
                                    pending := s.pending ++ [e.id] }) ∧
    (∀ (q : List Entry) (a b : Entry) (now : Int), a ∈ q → entryLt a b →
      a.time ≤ now → b.time ≤ now → popMin q ≠ some b) := by
  refine ⟨?_, ?_, ?_, entryLt_total, ?_, ?_, ?_⟩
  · intro a b h
    exact Or.inl h
  · intro a b h h'
    exact Or.inr ⟨h, Or.inl h'⟩
  · intro a b h h'
    constructor
    · intro hlt
      rcases hlt with hlt | ⟨_, hlt⟩
      · omega
      · rcases hlt with hlt | ⟨_, hlt⟩
        · omega
        · exact hlt
    · intro hid
      exact Or.inr ⟨h, Or.inr ⟨h', hid⟩⟩
  · intro q e h
    exact ⟨popMin_mem q e h, popMin_min q e h⟩
  · intro s now e t hrun hcap hpop hl hst htime
    unfold dispatchStep
    rw [if_neg (by simp [hrun]), if_neg (Nat.not_le.2 hcap), hpop]
    simp only [hl, if_neg hst, if_neg (not_lt.2 htime)]
  · intro q a b now ha hab _ _ hpop
    have hle := popMin_min q b hpop a ha
    rcases hle with hlt | heq
    · exact entryLt_irrefl a (entryLt_trans hab hlt)
    · rw [heq] at hab
      exact entryLt_irrefl a hab

/-! ### Serialization round trip and reload -/

/-- Deserializing a serialized task restores every field. -/
theorem from_dict_to_dict (t : Task) : Task.from_dict (Task.to_dict t) = some t := by
  obtain ⟨tid, tty, ps, st, pri, mr, rd, tmo, cb, stat, rc, sta, en, res, err⟩ := t
  cases cb <;> cases sta <;> cases en <;> cases res <;> cases err <;> rfl

theorem upsert_of_not_mem (ts : List (String × Task)) (id : String) (t : Task)
    (h : id ∉ keys ts) : upsert id t ts = ts ++ [(id, t)] := by
  induction ts with
  | nil => rfl
  | cons p rest ih =>
    obtain ⟨k, v⟩ := p
    have hk : ¬ k = id := fun hh => h (by rw [keys_cons, hh]; exact List.mem_cons_self id (keys rest))
    have hr : id ∉ keys rest := fun hh => h (by rw [keys_cons]; exact List.mem_cons_of_mem k hh)
    simp only [upsert, if_neg hk, ih hr, List.cons_append]

/-- Loading a dumped task list into a state with disjoint keys appends the
tasks in order and enqueues exactly the scheduled ones. -/
theorem loadTasks_dumpTasks (l : List (String × Task)) (acc : SchedState)
    (h1 : (keys l).Nodup) (h2 : ∀ k ∈ keys l, k ∉ keys acc.tasks) :
    (loadTasks acc (dumpTasks l)).tasks = acc.tasks ++ l ∧
    (loadTasks acc (dumpTasks l)).queue =
      acc.queue ++ (l.filter (fun p => p.2.status = "scheduled")).map (fun p => mkEntry p.2) := by
  induction l generalizing acc with
  | nil => simp [loadTasks, dumpTasks]
  | cons p rest ih =>
    obtain ⟨k, t⟩ := p
    rw [keys_cons] at h1
    rcases List.nodup_cons.1 h1 with ⟨hknotin, h1rest⟩
    have hk : k ∉ keys acc.tasks := h2 k (by rw [keys_cons]; exact List.mem_cons_self k (keys rest))
    have hstep : loadTasks acc (dumpTasks ((k, t) :: rest)) =
        loadTasks { acc with
          tasks := upsert k t acc.tasks,
          queue := if t.status = "scheduled" then acc.queue ++ [mkEntry t] else acc.queue }
          (dumpTasks rest) := by
      simp only [dumpTasks, List.map_cons, loadTasks, from_dict_to_dict]
    rw [hstep]
    have hrest : ∀ k' ∈ keys rest, k' ∉ keys ({ acc with
        tasks := upsert k t acc.tasks,
        queue := if t.status = "scheduled" then acc.queue ++ [mkEntry t] else acc.queue } :
        SchedState).tasks := by
      intro k' hk'
      intro hc
      rcases mem_keys_upsert acc.tasks k k' t hc with hc' | hc'
      · exact h2 k' (by rw [keys_cons]; exact List.mem_cons_of_mem k hk') hc'
      · rw [hc'] at hk'
        exact hknotin hk'
    rcases ih _ h1rest hrest with ⟨ih1, ih2⟩
    constructor
    · rw [ih1]
      simp only [upsert_of_not_mem acc.tasks k t hk, List.append_assoc, List.cons_append,
        List.nil_append]
    · rw [ih2]
      by_cases hsch : t.status = "scheduled"
      · simp [hsch, List.filter_cons, List.append_assoc]
      · simp [hsch, List.filter_cons]

/-- C5: deserializing a serialized task restores every field, and a save
followed by a load into a fresh scheduler reconstructs the identical task
map while re-enqueueing exactly the tasks whose persisted status is
"scheduled" (tasks persisted with any other status, including "running",
are loaded but not enqueued). -/
theorem roundtrip_save_load (t : Task) (s : SchedState) (n : Nat) (hs : List String)
    (h1 : (keys s.tasks).Nodup) :
    Task.from_dict (Task.to_dict t) = some t ∧
    (loadTasks (initState n hs) (dumpTasks s.tasks)).tasks = s.tasks ∧
    (loadTasks (initState n hs) (dumpTasks s.tasks)).queue =
      (s.tasks.filter (fun p => p.2.status = "scheduled")).map (fun p => mkEntry p.2) := by
  have h2 : ∀ k ∈ keys s.tasks, k ∉ keys (initState n hs).tasks := by
    intro k _ hc
    simp [initState, keys] at hc
  rcases loadTasks_dumpTasks s.tasks (initState n hs) h1 h2 with ⟨ha, hb⟩
  refine ⟨from_dict_to_dict t, ?_, ?_⟩
  · rw [ha]
    simp [initState]
  · rw [hb]
    simp [initState]

/-! ### Key consistency and stranded running-set entries -/

/-- Every stored task's `task_id` field agrees with its dictionary key
(true of every state built through the scheduler API). -/
def KeyedTasks (s : SchedState) : Prop :=
  ∀ k t, alookup k s.tasks = some t → t.task_id = k

theorem keyed_upsert (ts : List (String × Task)) (id : String) (t : Task)
    (h : ∀ k t', alookup k ts = some t' → t'.task_id = k)
    (ht : t.task_id = id) :
    ∀ k t', alookup k (upsert id t ts) = some t' → t'.task_id = k := by
  intro k t' hl
  by_cases hk : k = id
  · subst hk
    rw [alookup_upsert_self] at hl
    injection hl with hEq
    rw [← hEq]
    exact ht
  · rw [alookup_upsert_ne ts id k t hk] at hl
    exact h k t' hl

theorem keyed_setCancelled (ts : List (String × Task)) (id : String)
    (h : ∀ k t', alookup k ts = some t' → t'.task_id = k) :
    ∀ k t', alookup k (setCancelled ts id) = some t' → t'.task_id = k := by
  unfold setCancelled
  cases hl : alookup id ts with
  | none => exact h
  | some t => exact keyed_upsert ts id _ h (h id t hl)

theorem keyed_setEnded (ts : List (String × Task)) (id : String) (now : Int)
    (h : ∀ k t', alookup k ts = some t' → t'.task_id = k) :
    ∀ k t', alookup k (setEnded now ts id) = some t' → t'.task_id = k := by
  unfold setEnded
  cases hl : alookup id ts with
  | none => exact h
  | some t => exact keyed_upsert ts id _ h (h id t hl)

theorem keyed_foldl_setCancelled (ids : List String) (ts : List (String × Task))
    (h : ∀ k t', alookup k ts = some t' → t'.task_id = k) :
    ∀ k t', alookup k (ids.foldl setCancelled ts) = some t' → t'.task_id = k := by
  induction ids generalizing ts with
  | nil => exact h
  | cons a rest ih =>
    rw [List.foldl_cons]
    exact ih (setCancelled ts a) (keyed_setCancelled ts a h)

theorem keyed_foldl_setEnded (ids : List String) (ts : List (String × Task)) (now : Int)
    (h : ∀ k t', alookup k ts = some t' → t'.task_id = k) :
    ∀ k t', alookup k (ids.foldl (setEnded now) ts) = some t' → t'.task_id = k := by
  induction ids generalizing ts with
  | nil => exact h
  | cons a rest ih =>
    rw [List.foldl_cons]
    exact ih (setEnded now ts a) (keyed_setEnded ts a now h)

theorem applyOutcome_task_id (t : Task) (oc : Outcome) (now : Int) :
    (applyOutcome t oc now).1.task_id = t.task_id := by
  unfold applyOutcome
  cases oc with
  | success v => rfl
  | timeout =>
    by_cases hrc : t.retry_count < t.max_retries
    · simp [hrc]
    · simp [hrc]
  | failure msg =>
    by_cases hrc : t.retry_count < t.max_retries
    · simp [hrc]
    · simp [hrc]

theorem keyed_applyEv (e : Ev) (s : SchedState) (h : KeyedTasks s) :
    KeyedTasks (applyEv e s) := by
  cases e with
  | start => exact h
  | schedule a =>
    show KeyedTasks (scheduleTask s (mkTask a)).2
    exact keyed_upsert s.tasks (mkTask a).task_id (mkTask a) h rfl
  | cancel id now =>
    show KeyedTasks (cancelTask s id now).2
    unfold cancelTask
    split
    · exact h
    · next t hl =>
      split
      · split
        · exact keyed_upsert s.tasks id _ h (h id t hl)
        · split
          · exact keyed_upsert s.tasks id _ h (h id t hl)
          · exact keyed_upsert s.tasks id _ h (h id t hl)
      · exact h
  | dispatch now =>
    show KeyedTasks (dispatchStep s now)
    unfold dispatchStep
    split
    · exact h
    · split
      · exact h
      · split
        · exact h
        · next e' heq =>
          split
          · exact h
          · next t hl =>
            split
            · exact h
            · split
              · exact h
              · exact h
  | execBegin id now =>
    show KeyedTasks (execStart s id now)
    unfold execStart
    split
    · split
      · exact h
      · next t hl =>
        split
        · exact keyed_upsert s.tasks id _ h (h id t hl)
        · exact keyed_upsert s.tasks id _ h (h id t hl)
    · exact h
  | execEnd id oc now =>
    show KeyedTasks (execFinish s id oc now)
    unfold execFinish
    split
    · split
      · exact h
      · next t hl =>
        have hid : ({ (applyOutcome t oc now).1 with end_time := some now } : Task).task_id = id := by
          show (applyOutcome t oc now).1.task_id = id
          rw [applyOutcome_task_id]
          exact h id t hl
        exact keyed_upsert s.tasks id _ h hid
    · exact h
  | shutdown now =>
    show KeyedTasks (shutdownStep s now)
    unfold shutdownStep
    exact keyed_foldl_setEnded s.inflight _ now (keyed_foldl_setCancelled s.running s.tasks h)

theorem applyOutcome_entry_id (t : Task) (oc : Outcome) (now : Int) (e : Entry)
    (h : (applyOutcome t oc now).2 = some e) : e.id = t.task_id := by
  unfold applyOutcome at h
  cases oc with
  | success v => simp at h
  | timeout =>
    by_cases hrc : t.retry_count < t.max_retries
    · simp only [hrc, if_pos] at h
      injection h with hEq
      rw [← hEq]
      rfl
    · simp [hrc] at h
  | failure msg =>
    by_cases hrc : t.retry_count < t.max_retries
    · simp only [hrc, if_pos] at h
      injection h with hEq
      rw [← hEq]
      rfl
    · simp [hrc] at h

/-- A task id stranded in the `running_tasks` key set: no ready-queue entry
and no created or in-flight runner refers to it any more. -/
def StuckId (s : SchedState) (id : String) : Prop :=
  id ∈ s.running ∧ id ∉ s.pending ∧ id ∉ s.inflight ∧ qCount id s.queue = 0

theorem mem_foldl_eraseId (ids : List String) (l : List String) (x : String)
    (hx : x ∈ l) (hne : x ∉ ids) : x ∈ ids.foldl (fun acc id => eraseId id acc) l := by
  induction ids generalizing l with
  | nil => exact hx
  | cons a rest ih =>
    rw [List.foldl_cons]
    have hxa : x ≠ a := fun hh => hne (by rw [hh]; exact List.mem_cons_self a rest)
    exact ih (eraseId a l) (mem_eraseId_of_ne l a x hx hxa)
      (fun hh => hne (List.mem_cons_of_mem a hh))

theorem schedIds_cons (e : Ev) (evs : List Ev) :
    schedIds (e :: evs) = schedIds [e] ++ schedIds evs := by
  cases e <;> rfl

theorem stuck_preserved (s : SchedState) (id : String) (e : Ev)
    (hst : StuckId s id) (hkey : KeyedTasks s) (hfresh : id ∉ schedIds [e]) :
    StuckId (applyEv e s) id := by
  obtain ⟨h1, h2, h3, h4⟩ := hst
  cases e with
  | start => exact ⟨h1, h2, h3, h4⟩
  | schedule a =>
    have hne : (mkTask a).task_id ≠ id := by
      intro hh
      exact hfresh (by simp [schedIds]; exact hh.symm ▸ rfl)
    refine ⟨h1, h2, h3, ?_⟩
    show qCount id (s.queue ++ [mkEntry (mkTask a)]) = 0
    rw [qCount_append, qCount_cons,
      if_neg (show ¬ (mkEntry (mkTask a)).id = id from hne), h4]
    rfl
  | cancel id' now =>
    show StuckId (cancelTask s id' now).2 id
    unfold cancelTask
    split
    · exact ⟨h1, h2, h3, h4⟩
    · next t hl =>
      split
      · split
        · next hin =>
          have hne : id ≠ id' := fun hh => h3 (hh ▸ hin)
          exact ⟨mem_eraseId_of_ne s.running id' id h1 hne, h2,
            fun hc => h3 (mem_of_mem_eraseId s.inflight id' id hc), h4⟩
        · split
          · exact ⟨h1, fun hc => h2 (mem_of_mem_eraseId s.pending id' id hc), h3, h4⟩
          · exact ⟨h1, h2, h3, h4⟩
      · exact ⟨h1, h2, h3, h4⟩
  | dispatch now =>
    show StuckId (dispatchStep s now) id
    unfold dispatchStep
    split
    · exact ⟨h1, h2, h3, h4⟩
    · split
      · exact ⟨h1, h2, h3, h4⟩
      · split
        · exact ⟨h1, h2, h3, h4⟩
        · next e' heq =>
          have hmem := popMin_mem s.queue e' heq
          have heid : e'.id ≠ id := (qCount_eq_zero_iff id s.queue).1 h4 e' hmem
          have hq' : qCount id (erase1 e' s.queue) = 0 := by
            have := qCount_erase1_le s.queue e' id
            omega
          split
          · exact ⟨h1, h2, h3, hq'⟩
          · next t hl =>
            split
            · exact ⟨h1, h2, h3, hq'⟩
            · split
              · have htid : (mkEntry t).id ≠ id := by
                  show t.task_id ≠ id
                  rw [hkey e'.id t hl]
                  exact heid
                refine ⟨h1, h2, h3, ?_⟩
                show qCount id (erase1 e' s.queue ++ [mkEntry t]) = 0
                rw [qCount_append, qCount_cons, if_neg htid, hq']
                rfl
              · refine ⟨?_, ?_, h3, hq'⟩
                · show id ∈ pushId e'.id s.running
                  exact (mem_pushId s.running e'.id id).2 (Or.inl h1)
                · show id ∉ s.pending ++ [e'.id]
                  intro hc
                  rcases List.mem_append.1 hc with hc | hc
                  · exact h2 hc
                  · have hide : id = e'.id := by simpa using hc
                    exact heid hide.symm
  | execBegin id' now =>
    show StuckId (execStart s id' now) id
    unfold execStart
    split
    · next hp =>
      have hne : id ≠ id' := fun hh => h2 (hh ▸ hp)
      split
      · exact ⟨h1, fun hc => h2 (mem_of_mem_eraseId s.pending id' id hc), h3, h4⟩
      · next t hl =>
        split
        · refine ⟨h1, fun hc => h2 (mem_of_mem_eraseId s.pending id' id hc), ?_, h4⟩
          intro hc
          rcases List.mem_append.1 hc with hc | hc
          · exact h3 hc
          · exact hne (by simpa using hc)
        · exact ⟨h1, fun hc => h2 (mem_of_mem_eraseId s.pending id' id hc), h3, h4⟩
    · exact ⟨h1, h2, h3, h4⟩
  | execEnd id' oc now =>
    show StuckId (execFinish s id' oc now) id
    unfold execFinish
    split
    · next hin =>
      have hne : id ≠ id' := fun hh => h3 (hh ▸ hin)
      split
      · exact ⟨h1, h2, fun hc => h3 (mem_of_mem_eraseId s.inflight id' id hc), h4⟩
      · next t hl =>
        refine ⟨mem_eraseId_of_ne s.running id' id h1 hne, h2,
          fun hc => h3 (mem_of_mem_eraseId s.inflight id' id hc), ?_⟩
        show qCount id (match (applyOutcome t oc now).2 with
          | some e => s.queue ++ [e]
          | none => s.queue) = 0
        cases hr2 : (applyOutcome t oc now).2 with
        | none => exact h4
        | some e' =>
          have htid : e'.id ≠ id := by
            rw [applyOutcome_entry_id t oc now e' hr2, hkey id' t hl]
            exact fun hh => hne hh.symm
          rw [qCount_append, qCount_cons, if_neg htid, h4]
          rfl
    · exact ⟨h1, h2, h3, h4⟩
  | shutdown now =>
    show StuckId (shutdownStep s now) id
    refine ⟨?_, ?_, ?_, h4⟩
    · show id ∈ s.inflight.foldl (fun l id => eraseId id l) s.running
      exact mem_foldl_eraseId s.inflight s.running id h1 h3
    · show id ∉ ([] : List String)
      simp
    · show id ∉ ([] : List String)
      simp

theorem stuck_runFrom (s : SchedState) (id : String) (evs : List Ev)
    (hst : StuckId s id) (hkey : KeyedTasks s) (hfresh : id ∉ schedIds evs) :
    StuckId (runFrom s evs) id := by
  induction evs generalizing s with
  | nil => exact hst
  | cons e rest ih =>
    rw [schedIds_cons] at hfresh
    have hf1 : id ∉ schedIds [e] := fun hc => hfresh (List.mem_append_left _ hc)
    have hf2 : id ∉ schedIds rest := fun hc => hfresh (List.mem_append_right _ hc)
    exact ih (applyEv e s) (stuck_preserved s id e hst hkey hf1) (keyed_applyEv e s hkey) hf2

/-- C9: executing a task whose type has no registered handler sets status
failed and the no-handler error but leaves the rest of the record
(including `start_time` and `end_time`) untouched, sends no callback, and
never removes the id from the `running_tasks` key set; the entry the worker
added for it is still there after the execution step, and no later event
(none of which re-schedules that id) ever removes it — the id permanently
occupies one slot of the concurrency budget. -/
theorem noHandler_leaks_running_slot (s : SchedState) (id : String) (now : Int) (t : Task)
    (hp : id ∈ s.pending) (hl : alookup id s.tasks = some t)
    (hh : t.task_type ∉ s.handlers) (hr : id ∈ s.running)
    (hkey : KeyedTasks s) (hpq : qCount id s.queue = 0)
    (hnodup : s.pending.Nodup) (hni : id ∉ s.inflight) :
    alookup id (execStart s id now).tasks =
      some { t with status := "failed", error := some (noHandlerMsg t) } ∧
    (execStart s id now).running = s.running ∧
    (execStart s id now).callbacks = s.callbacks ∧
    id ∈ (execStart s id now).running ∧
    (∀ evs, id ∉ schedIds evs → id ∈ (runFrom (execStart s id now) evs).running) := by
  have hred : execStart s id now = doSave { s with
      tasks := upsert id { t with status := "failed", error := some (noHandlerMsg t) } s.tasks,
      pending := eraseId id s.pending } := by
    simp only [execStart, if_pos hp, hl, if_neg hh]
  refine ⟨?_, ?_, ?_, ?_, ?_⟩
  · rw [hred]
    exact alookup_upsert_self s.tasks id _
  · rw [hred]
    rfl
  · rw [hred]
    rfl
  · rw [hred]
    exact hr
  · intro evs hfresh
    have hstuck : StuckId (execStart s id now) id := by
      rw [hred]
      exact ⟨hr, not_mem_eraseId_self s.pending id hnodup, hni, hpq⟩
    have hkey' : KeyedTasks (execStart s id now) :=
      keyed_applyEv (Ev.execBegin id now) s hkey
    exact (stuck_runFrom (execStart s id now) id evs hstuck hkey' hfresh).1

/-! ### Concrete traces -/

/-- A scheduled task with a callback url whose type has no handler. -/
def c3Trace : List Ev :=
  [Ev.start,
   Ev.schedule ⟨"t1", "scrape", [], 0, 1, 3, 5, 60, some "http://cb.example/hook"⟩,
   Ev.dispatch 10,
   Ev.execBegin "t1" 10]

/-- C3 (code-bug evidence): after executing a task whose type has no handler,
the status is failed with the no-handler error and the state is persisted,
but — although `callback_url` is set and the final status is failed — no
callback notification is ever posted, no `end_time` is recorded, and the id
is still in the running set: the early return skips the try/finally and
with it the callback step the spec prescribes. -/
theorem noHandler_skips_callback :
    statusOf (run 2 ["w"] c3Trace) "t1" = some "failed" ∧
    (alookup "t1" (run 2 ["w"] c3Trace).tasks).map Task.error =
      some (some "No handler registered for task type: scrape") ∧
    (run 2 ["w"] c3Trace).saved = dumpTasks (run 2 ["w"] c3Trace).tasks ∧
    (alookup "t1" (run 2 ["w"] c3Trace).tasks).map Task.callback_url =
      some (some "http://cb.example/hook") ∧
    (run 2 ["w"] c3Trace).callbacks = [] ∧
    "t1" ∈ (run 2 ["w"] c3Trace).running ∧
    (alookup "t1" (run 2 ["w"] c3Trace).tasks).map Task.end_time = some none := by
  decide

/-- The state machine of spec §4.1 read literally: from Scheduled only to
Running or Cancelled, from Running to Completed, Failed, Scheduled or
Cancelled; Completed, Failed and Cancelled are terminal. -/
def SpecAllowed (a b : String) : Prop :=
  a = b ∨
  (a = "scheduled" ∧ (b = "running" ∨ b = "cancelled")) ∨
  (a = "running" ∧ (b = "completed" ∨ b = "failed" ∨ b = "scheduled" ∨ b = "cancelled"))

instance specAllowedDec (a b : String) : Decidable (SpecAllowed a b) := by
  unfold SpecAllowed
  infer_instance

/-- A dispatched task whose type has no registered handler. -/
def c2Trace : List Ev :=
  [Ev.start, Ev.schedule ⟨"u1", "mystery", [], 0, 2, 3, 5, 60, none⟩, Ev.dispatch 5]

/-- C2 counterexample: the missing-handler execution step takes the task
from scheduled straight to failed — a status change performed by a
scheduler operation that does not follow the §4.1 state machine, and the
task reaches Failed without ever having been Running. -/
theorem scheduled_to_failed_directly :
    statusOf (run 2 ["w"] c2Trace) "u1" = some "scheduled" ∧
    statusOf (run 2 ["w"] (c2Trace ++ [Ev.execBegin "u1" 5])) "u1" = some "failed" ∧
    ¬ SpecAllowed "scheduled" "failed" := by
  decide

/-- A task that fails once, is retried, and then completes. -/
def c8Trace : List Ev :=
  [Ev.start, Ev.schedule ⟨"r1", "w", [], 0, 1, 3, 5, 60, none⟩,
   Ev.dispatch 10, Ev.execBegin "r1" 10, Ev.execEnd "r1" (Outcome.failure "boom") 20,
   Ev.dispatch 100, Ev.execBegin "r1" 100, Ev.execEnd "r1" (Outcome.success "ok") 110]

/-- C8 counterexample: a task that failed its first attempt, was retried,
and then completed ends with status completed, `result = some "ok"`, and
the stale `error = some "boom"` still set — the success path never clears
`error`, so result and error are not mutually exclusive on terminal
states. -/
theorem retried_completed_keeps_error :
    statusOf (run 2 ["w"] c8Trace) "r1" = some "completed" ∧
    (alookup "r1" (run 2 ["w"] c8Trace).tasks).map Task.result = some (some "ok") ∧
    (alookup "r1" (run 2 ["w"] c8Trace).tasks).map Task.error = some (some "boom") := by
  decide

/-! ### The retry bound -/

theorem alookup_upsert_cases (ts : List (String × Task)) (id k : String) (t t' : Task)
    (h : alookup k (upsert id t ts) = some t') :
    (k = id ∧ t' = t) ∨ (k ≠ id ∧ alookup k ts = some t') := by
  by_cases hk : k = id
  · subst hk
    rw [alookup_upsert_self] at h
    injection h with hEq
    exact Or.inl ⟨rfl, hEq.symm⟩
  · rw [alookup_upsert_ne ts id k t hk] at h
    exact Or.inr ⟨hk, h⟩

/-- Any property of the scheduler state preserved by every event holds at
the end of every trace. -/
theorem runFrom_invariant {P : SchedState → Prop}
    (hstep : ∀ e s, P s → P (applyEv e s)) :
    ∀ (evs : List Ev) (s : SchedState), P s → P (runFrom s evs) := by
  intro evs
  induction evs with
  | nil => intro s h; exact h
  | cons e rest ih =>
    intro s h
    exact ih (applyEv e s) (hstep e s h)

theorem applyOutcome_retry_le (t : Task) (oc : Outcome) (now : Int)
    (h : t.retry_count ≤ t.max_retries) :
    (applyOutcome t oc now).1.retry_count ≤ (applyOutcome t oc now).1.max_retries := by
  unfold applyOutcome
  cases oc with
  | success v => exact h
  | timeout =>
    by_cases hrc : t.retry_count < t.max_retries
    · simp only [if_pos hrc]
      omega
    · simp only [if_neg hrc]
      exact h
  | failure msg =>
    by_cases hrc : t.retry_count < t.max_retries
    · simp only [if_pos hrc]
      omega
    · simp only [if_neg hrc]
      exact h

/-- The retry-bound property of a task map. -/
def RetryBounded (ts : List (String × Task)) : Prop :=
  ∀ k t, alookup k ts = some t → t.retry_count ≤ t.max_retries

theorem retry_upsert (ts : List (String × Task)) (id : String) (t : Task)
    (h : RetryBounded ts) (ht : t.retry_count ≤ t.max_retries) :
    RetryBounded (upsert id t ts) := by
  intro k t' hl
  rcases alookup_upsert_cases ts id k t t' hl with ⟨_, hEq⟩ | ⟨_, hl'⟩
  · rw [hEq]; exact ht
  · exact h k t' hl'

theorem retry_setCancelled (ts : List (String × Task)) (id : String)
    (h : RetryBounded ts) : RetryBounded (setCancelled ts id) := by
  unfold setCancelled
  cases hl : alookup id ts with
  | none => exact h
  | some t => exact retry_upsert ts id _ h (h id t hl)

theorem retry_setEnded (ts : List (String × Task)) (id : String) (now : Int)
    (h : RetryBounded ts) : RetryBounded (setEnded now ts id) := by
  unfold setEnded
  cases hl : alookup id ts with
  | none => exact h
  | some t => exact retry_upsert ts id _ h (h id t hl)

theorem retry_foldl_setCancelled (ids : List String) (ts : List (String × Task))
    (h : RetryBounded ts) : RetryBounded (ids.foldl setCancelled ts) := by
  induction ids generalizing ts with
  | nil => exact h
  | cons a rest ih =>
    rw [List.foldl_cons]
    exact ih (setCancelled ts a) (retry_setCancelled ts a h)

theorem retry_foldl_setEnded (ids : List String) (ts : List (String × Task)) (now : Int)
    (h : RetryBounded ts) : RetryBounded (ids.foldl (setEnded now) ts) := by
  induction ids generalizing ts with
  | nil => exact h
  | cons a rest ih =>
    rw [List.foldl_cons]
    exact ih (setEnded now ts a) (retry_setEnded ts a now h)

theorem retry_applyEv (e : Ev) (s : SchedState) (h : RetryBounded s.tasks) :
    RetryBounded (applyEv e s).tasks := by
  cases e with
  | start => exact h
  | schedule a =>
    show RetryBounded (scheduleTask s (mkTask a)).2.tasks
    exact retry_upsert s.tasks (mkTask a).task_id (mkTask a) h (Nat.zero_le _)
  | cancel id now =>
    show RetryBounded (cancelTask s id now).2.tasks
    unfold cancelTask
    split
    · exact h
    · next t hl =>
      split
      · split
        · exact retry_upsert s.tasks id _ h (h id t hl)
        · split
          · exact retry_upsert s.tasks id _ h (h id t hl)
          · exact retry_upsert s.tasks id _ h (h id t hl)
      · exact h
  | dispatch now =>
    show RetryBounded (dispatchStep s now).tasks
    unfold dispatchStep
    split
    · exact h
    · split
      · exact h
      · split
        · exact h
        · next e' heq =>
          split
          · exact h
          · next t hl =>
            split
            · exact h
            · split
              · exact h
              · exact h
  | execBegin id now =>
    show RetryBounded (execStart s id now).tasks
    unfold execStart
    split
    · split
      · exact h
      · next t hl =>
        split
        · exact retry_upsert s.tasks id _ h (h id t hl)
        · exact retry_upsert s.tasks id _ h (h id t hl)
    · exact h
  | execEnd id oc now =>
    show RetryBounded (execFinish s id oc now).tasks
    unfold execFinish
    split
    · split
      · exact h
      · next t hl =>
        exact retry_upsert s.tasks id _ h (applyOutcome_retry_le t oc now (h id t hl))
    · exact h
  | shutdown now =>
    show RetryBounded (shutdownStep s now).tasks
    exact retry_foldl_setEnded s.inflight _ now (retry_foldl_setCancelled s.running s.tasks h)

/-- C1: along every trace every stored task satisfies
`retry_count ≤ max_retries`; on a timeout or handler failure the retry path
increments `retry_count` only when `retry_count < max_retries` (then resets
the status to scheduled, moves `scheduled_time` to `now + retry_delay`, and
produces the queue entry that is re-inserted), and with the retries already
exhausted the status stays failed. -/
theorem retry_count_le_max_retries :
    (∀ (n : Nat) (hs : List String) (evs : List Ev) (id : String) (t : Task),
      alookup id (run n hs evs).tasks = some t → t.retry_count ≤ t.max_retries) ∧
    (∀ (t : Task) (oc : Outcome) (now : Int),
      (oc = Outcome.timeout ∨ ∃ m, oc = Outcome.failure m) →
      t.retry_count < t.max_retries →
      (applyOutcome t oc now).1.retry_count = t.retry_count + 1 ∧
      (applyOutcome t oc now).1.status = "scheduled" ∧
      (applyOutcome t oc now).1.schedule_time = now + (t.retry_delay : Int) ∧
      (applyOutcome t oc now).2 = some (mkEntry (applyOutcome t oc now).1)) ∧
    (∀ (t : Task) (oc : Outcome) (now : Int),
      (oc = Outcome.timeout ∨ ∃ m, oc = Outcome.failure m) →
      t.max_retries ≤ t.retry_count →
      (applyOutcome t oc now).1.status = "failed" ∧
      (applyOutcome t oc now).1.retry_count = t.retry_count ∧
      (applyOutcome t oc now).2 = none) := by
  refine ⟨?_, ?_, ?_⟩
  · intro n hs evs id t hl
    have hinit : RetryBounded (initState n hs).tasks := by
      intro k t' hl'
      simp [initState, alookup] at hl'
    have := @runFrom_invariant (fun st => RetryBounded st.tasks) retry_applyEv evs
      (initState n hs) hinit
    exact this id t hl
  · rintro t oc now (rfl | ⟨m, rfl⟩) hrc
    · unfold applyOutcome
      simp [hrc]
    · unfold applyOutcome
      simp [hrc]
  · rintro t oc now (rfl | ⟨m, rfl⟩) hrc
    · unfold applyOutcome
      simp [Nat.not_lt.2 hrc]
    · unfold applyOutcome
      simp [Nat.not_lt.2 hrc]

/-! ### Shutdown fold characterization and trace plumbing -/

theorem not_mem_eraseId_of_count_le_one (l : List String) (id : String)
    (h : idCount id l ≤ 1) : id ∉ eraseId id l := by
  intro hc
  by_cases hm : id ∈ l
  · have h1 := idCount_eraseId_self l id hm
    have h0 : idCount id (eraseId id l) = 0 := by omega
    exact (idCount_eq_zero_iff id (eraseId id l)).1 h0 hc
  · exact hm (mem_of_mem_eraseId l id id hc)

theorem alookup_setCancelled_ne (ts : List (String × Task)) (a k : String) (h : k ≠ a) :
    alookup k (setCancelled ts a) = alookup k ts := by
  unfold setCancelled
  cases hl : alookup a ts with
  | none => rfl
  | some t => exact alookup_upsert_ne ts a k _ h

theorem alookup_setCancelled_self (ts : List (String × Task)) (a : String) :
    alookup a (setCancelled ts a) =
      (alookup a ts).map (fun t => { t with status := "cancelled" }) := by
  cases hl : alookup a ts with
  | none => simp only [setCancelled, hl, Option.map_none']
  | some t =>
    simp only [setCancelled, hl, alookup_upsert_self, Option.map_some']

theorem alookup_setEnded_ne (ts : List (String × Task)) (a k : String) (now : Int) (h : k ≠ a) :
    alookup k (setEnded now ts a) = alookup k ts := by
  unfold setEnded
  cases hl : alookup a ts with
  | none => rfl
  | some t => exact alookup_upsert_ne ts a k _ h

theorem alookup_setEnded_self (ts : List (String × Task)) (a : String) (now : Int) :
    alookup a (setEnded now ts a) =
      (alookup a ts).map (fun t => { t with end_time := some now }) := by
  cases hl : alookup a ts with
  | none => simp only [setEnded, hl, Option.map_none']
  | some t =>
    simp only [setEnded, hl, alookup_upsert_self, Option.map_some']

theorem keys_setCancelled (ts : List (String × Task)) (a : String) :
    keys (setCancelled ts a) = keys ts := by
  unfold setCancelled
  cases hl : alookup a ts with
  | none => rfl
  | some t => exact keys_upsert_of_mem ts a _ (alookup_mem_keys ts a t hl)

theorem keys_setEnded (ts : List (String × Task)) (a : String) (now : Int) :
    keys (setEnded now ts a) = keys ts := by
  unfold setEnded
  cases hl : alookup a ts with
  | none => rfl
  | some t => exact keys_upsert_of_mem ts a _ (alookup_mem_keys ts a t hl)

theorem keys_foldl_setCancelled (ids : List String) (ts : List (String × Task)) :
    keys (ids.foldl setCancelled ts) = keys ts := by
  induction ids generalizing ts with
  | nil => rfl
  | cons a rest ih =>
    rw [List.foldl_cons, ih (setCancelled ts a), keys_setCancelled]

theorem keys_foldl_setEnded (ids : List String) (ts : List (String × Task)) (now : Int) :
    keys (ids.foldl (setEnded now) ts) = keys ts := by
  induction ids generalizing ts with
  | nil => rfl
  | cons a rest ih =>
    rw [List.foldl_cons, ih (setEnded now ts a), keys_setEnded]

theorem alookup_foldl_setCancelled_not_mem (ids : List String) (ts : List (String × Task))
    (k : String) (h : k ∉ ids) : alookup k (ids.foldl setCancelled ts) = alookup k ts := by
  induction ids generalizing ts with
  | nil => rfl
  | cons a rest ih =>
    have hka : k ≠ a := fun hh => h (by rw [hh]; exact List.mem_cons_self a rest)
    have hr : k ∉ rest := fun hh => h (List.mem_cons_of_mem a hh)
    rw [List.foldl_cons, ih (setCancelled ts a) hr, alookup_setCancelled_ne ts a k hka]

theorem alookup_foldl_setCancelled_mem (ids : List String) (ts : List (String × Task))
    (k : String) (h : k ∈ ids) :
    alookup k (ids.foldl setCancelled ts) =
      (alookup k ts).map (fun t => { t with status := "cancelled" }) := by
  induction ids generalizing ts with
  | nil => simp at h
  | cons a rest ih =>
    rw [List.foldl_cons]
    by_cases hk : k ∈ rest
    · rw [ih (setCancelled ts a) hk]
      by_cases hka : k = a
      · subst hka
        rw [alookup_setCancelled_self]
        cases alookup k ts <;> rfl
      · rw [alookup_setCancelled_ne ts a k hka]
    · have hka : k = a := by
        rcases List.mem_cons.1 h with hh | hh
        · exact hh
        · exact absurd hh hk
      subst hka
      rw [alookup_foldl_setCancelled_not_mem rest (setCancelled ts k) k hk,
        alookup_setCancelled_self]

theorem alookup_foldl_setEnded_not_mem (ids : List String) (ts : List (String × Task))
    (k : String) (now : Int) (h : k ∉ ids) :
    alookup k (ids.foldl (setEnded now) ts) = alookup k ts := by
  induction ids generalizing ts with
  | nil => rfl
  | cons a rest ih =>
    have hka : k ≠ a := fun hh => h (by rw [hh]; exact List.mem_cons_self a rest)
    have hr : k ∉ rest := fun hh => h (List.mem_cons_of_mem a hh)
    rw [List.foldl_cons, ih (setEnded now ts a) hr, alookup_setEnded_ne ts a k now hka]

theorem alookup_foldl_setEnded_mem (ids : List String) (ts : List (String × Task))
    (k : String) (now : Int) (h : k ∈ ids) :
    alookup k (ids.foldl (setEnded now) ts) =
      (alookup k ts).map (fun t => { t with end_time := some now }) := by
  induction ids generalizing ts with
  | nil => simp at h
  | cons a rest ih =>
    rw [List.foldl_cons]
    by_cases hk : k ∈ rest
    · rw [ih (setEnded now ts a) hk]
      by_cases hka : k = a
      · subst hka
        rw [alookup_setEnded_self]
        cases alookup k ts <;> rfl
      · rw [alookup_setEnded_ne ts a k now hka]
    · have hka : k = a := by
        rcases List.mem_cons.1 h with hh | hh
        · exact hh
        · exact absurd hh hk
      subst hka
      rw [alookup_foldl_setEnded_not_mem rest (setEnded now ts k) k now hk,
        alookup_setEnded_self]

theorem schedIds_append (evs1 evs2 : List Ev) :
    schedIds (evs1 ++ evs2) = schedIds evs1 ++ schedIds evs2 := by
  induction evs1 with
  | nil => rfl
  | cons e rest ih =>
    rw [List.cons_append, schedIds_cons, ih, schedIds_cons e rest,
      List.append_assoc]

theorem runFrom_append (s : SchedState) (evs : List Ev) (e : Ev) :
    runFrom s (evs ++ [e]) = applyEv e (runFrom s evs) := by
  induction evs generalizing s with
  | nil => rfl
  | cons e' rest ih =>
    rw [List.cons_append]
    show runFrom (applyEv e' s) (rest ++ [e]) = applyEv e (runFrom (applyEv e' s) rest)
    exact ih (applyEv e' s)

theorem keys_applyEv_subset (e : Ev) (s : SchedState) (k : String)
    (h : k ∈ keys (applyEv e s).tasks) : k ∈ keys s.tasks ∨ k ∈ schedIds [e] := by
  cases e with
  | start => exact Or.inl h
  | schedule a =>
    rcases mem_keys_upsert s.tasks (mkTask a).task_id k (mkTask a) h with h' | h'
    · exact Or.inl h'
    · exact Or.inr (by rw [h']; exact List.mem_cons_self _ _)
  | cancel id now =>
    refine Or.inl ?_
    revert h
    show k ∈ keys (cancelTask s id now).2.tasks → k ∈ keys s.tasks
    unfold cancelTask
    split
    · exact fun hh => hh
    · next t hl =>
      have hm := alookup_mem_keys s.tasks id t hl
      split
      · split
        · intro h
          have h' : k ∈ keys (upsert id
              { t with status := "cancelled", end_time := some now } s.tasks) := h
          rw [keys_upsert_of_mem s.tasks id _ hm] at h'
          exact h'
        · split
          · intro h
            have h' : k ∈ keys (upsert id
                { t with status := "cancelled" } s.tasks) := h
            rw [keys_upsert_of_mem s.tasks id _ hm] at h'
            exact h'
          · intro h
            have h' : k ∈ keys (upsert id
                { t with status := "cancelled" } s.tasks) := h
            rw [keys_upsert_of_mem s.tasks id _ hm] at h'
            exact h'
      · exact fun hh => hh
  | dispatch now =>
    refine Or.inl ?_
    revert h
    show k ∈ keys (dispatchStep s now).tasks → k ∈ keys s.tasks
    unfold dispatchStep
    split
    · exact fun hh => hh
    · split
      · exact fun hh => hh
      · split
        · exact fun hh => hh
        · next e' heq =>
          split
          · exact fun hh => hh
          · next t hl =>
            split
            · exact fun hh => hh
            · split
              · exact fun hh => hh
              · exact fun hh => hh
  | execBegin id now =>
    refine Or.inl ?_
    revert h
    show k ∈ keys (execStart s id now).tasks → k ∈ keys s.tasks
    unfold execStart
    split
    · split
      · exact fun hh => hh
      · next t hl =>
        have hm := alookup_mem_keys s.tasks id t hl
        split
        · intro h
          have h' : k ∈ keys (upsert id
              { t with status := "running", start_time := some now } s.tasks) := h
          rw [keys_upsert_of_mem s.tasks id _ hm] at h'
          exact h'
        · intro h
          have h' : k ∈ keys (upsert id
              { t with status := "failed", error := some (noHandlerMsg t) } s.tasks) := h
          rw [keys_upsert_of_mem s.tasks id _ hm] at h'
          exact h'
    · exact fun hh => hh
  | execEnd id oc now =>
    refine Or.inl ?_
    revert h
    show k ∈ keys (execFinish s id oc now).tasks → k ∈ keys s.tasks
    unfold execFinish
    split
    · split
      · exact fun hh => hh
      · next t hl =>
        have hm := alookup_mem_keys s.tasks id t hl
        intro h
        have h' : k ∈ keys (upsert id
            { (applyOutcome t oc now).1 with end_time := some now } s.tasks) := h
        rw [keys_upsert_of_mem s.tasks id _ hm] at h'
        exact h'
    · exact fun hh => hh
  | shutdown now =>
    refine Or.inl ?_
    revert h
    show k ∈ keys (shutdownStep s now).tasks → k ∈ keys s.tasks
    unfold shutdownStep
    intro h
    have h' : k ∈ keys (s.inflight.foldl (setEnded now)
        (s.running.foldl setCancelled s.tasks)) := h
    rw [keys_foldl_setEnded, keys_foldl_setCancelled] at h'
    exact h'

/-! ### The master invariant of reachable scheduler states -/

/-- Inductive invariant of every state reachable through the scheduler API
(without duplicate scheduling of an id). -/
structure Inv (s : SchedState) : Prop where
  ndKeys : (keys s.tasks).Nodup
  ndRun : s.running.Nodup
  cap : s.running.length ≤ s.maxConc
  keyed : KeyedTasks s
  pendRun : ∀ id ∈ s.pending, id ∈ s.running
  inflRun : ∀ id ∈ s.inflight, id ∈ s.running
  runKeys : ∀ id ∈ s.running, id ∈ keys s.tasks
  qKeys : ∀ e ∈ s.queue, e.id ∈ keys s.tasks
  ref1 : ∀ id, qCount id s.queue + idCount id s.pending + idCount id s.inflight ≤ 1
  pendSched : ∀ id ∈ s.pending, ∀ t, alookup id s.tasks = some t → t.status = "scheduled"
  inflRunning : ∀ id ∈ s.inflight, ∀ t, alookup id s.tasks = some t → t.status = "running"
  runningInfl : ∀ id t, alookup id s.tasks = some t → t.status = "running" → id ∈ s.inflight
  qStat : ∀ e ∈ s.queue, ∀ t, alookup e.id s.tasks = some t →
    t.status = "scheduled" ∨ t.status = "cancelled"
  runNotComp : ∀ id ∈ s.running, ∀ t, alookup id s.tasks = some t → t.status ≠ "completed"
  statLegal : ∀ id t, alookup id s.tasks = some t →
    t.status = "scheduled" ∨ t.status = "running" ∨ t.status = "completed" ∨
    t.status = "failed" ∨ t.status = "cancelled"
  failErr : ∀ id t, alookup id s.tasks = some t → t.status = "failed" → t.error ≠ none
  compRes : ∀ id t, alookup id s.tasks = some t → t.status = "completed" → t.result ≠ none

theorem inv_initState (n : Nat) (hs : List String) : Inv (initState n hs) := by
  refine ⟨?_, ?_, ?_, ?_, ?_, ?_, ?_, ?_, ?_, ?_, ?_, ?_, ?_, ?_, ?_, ?_, ?_⟩ <;>
    simp [initState, keys, alookup, qCount, idCount, KeyedTasks]

theorem inv_start (s : SchedState) (h : Inv s) :
    Inv (applyEv Ev.start s) :=
  ⟨h.ndKeys, h.ndRun, h.cap, h.keyed, h.pendRun, h.inflRun, h.runKeys, h.qKeys, h.ref1,
   h.pendSched, h.inflRunning, h.runningInfl, h.qStat, h.runNotComp, h.statLegal,
   h.failErr, h.compRes⟩

theorem inv_schedule (s : SchedState) (a : CtorArgs) (h : Inv s)
    (hfresh : a.task_id ∉ keys s.tasks) :
    Inv (applyEv (Ev.schedule a) s) := by
  have hne : ∀ id ∈ keys s.tasks, id ≠ a.task_id := by
    intro id hid hc
    exact hfresh (hc ▸ hid)
  have hq0 : qCount a.task_id s.queue = 0 := by
    refine (qCount_eq_zero_iff a.task_id s.queue).2 ?_
    intro e he
    exact hne e.id (h.qKeys e he)
  have hp0 : idCount a.task_id s.pending = 0 := by
    refine (idCount_eq_zero_iff a.task_id s.pending).2 ?_
    intro hc
    exact hfresh (h.runKeys a.task_id (h.pendRun a.task_id hc))
  have hi0 : idCount a.task_id s.inflight = 0 := by
    refine (idCount_eq_zero_iff a.task_id s.inflight).2 ?_
    intro hc
    exact hfresh (h.runKeys a.task_id (h.inflRun a.task_id hc))
  have hpmem : a.task_id ∉ s.pending :=
    fun hc => hfresh (h.runKeys a.task_id (h.pendRun a.task_id hc))
  have himem : a.task_id ∉ s.inflight :=
    fun hc => hfresh (h.runKeys a.task_id (h.inflRun a.task_id hc))
  have hrmem : a.task_id ∉ s.running :=
    fun hc => hfresh (h.runKeys a.task_id hc)
  show Inv (scheduleTask s (mkTask a)).2
  refine ⟨?_, h.ndRun, h.cap, ?_, h.pendRun, h.inflRun, ?_, ?_, ?_, ?_, ?_, ?_, ?_, ?_, ?_, ?_, ?_⟩
  · exact keys_upsert_nodup s.tasks a.task_id (mkTask a) h.ndKeys
  · exact keyed_upsert s.tasks a.task_id (mkTask a) h.keyed rfl
  · intro id hid
    exact mem_keys_upsert_of_mem s.tasks a.task_id id (mkTask a) (h.runKeys id hid)
  · intro e he
    rcases List.mem_append.1 he with he | he
    · exact mem_keys_upsert_of_mem s.tasks a.task_id e.id (mkTask a) (h.qKeys e he)
    · have heq : e = mkEntry (mkTask a) := by simpa using he
      rw [heq]
      exact alookup_mem_keys _ _ _ (alookup_upsert_self s.tasks a.task_id (mkTask a))
  · intro id
    show qCount id (s.queue ++ [mkEntry (mkTask a)]) +
      idCount id s.pending + idCount id s.inflight ≤ 1
    have hsplit : qCount id (s.queue ++ [mkEntry (mkTask a)]) =
        qCount id s.queue + (if (mkEntry (mkTask a)).id = id then 1 else 0) := by
      rw [qCount_append, qCount_cons]
      have hnil : qCount id ([] : List Entry) = 0 := rfl
      omega
    by_cases hid : id = a.task_id
    · subst hid
      rw [hsplit, if_pos (show (mkEntry (mkTask a)).id = a.task_id from rfl), hq0, hp0, hi0]
    · rw [hsplit, if_neg (fun hh : (mkEntry (mkTask a)).id = id => hid hh.symm)]
      have := h.ref1 id
      omega
  · intro id hid t hl
    have hidne : id ≠ a.task_id := fun hh => hpmem (hh ▸ hid)
    rcases alookup_upsert_cases s.tasks a.task_id id (mkTask a) t hl with ⟨hEq, _⟩ | ⟨_, hl'⟩
    · exact absurd hEq hidne
    · exact h.pendSched id hid t hl'
  · intro id hid t hl
    have hidne : id ≠ a.task_id := fun hh => himem (hh ▸ hid)
    rcases alookup_upsert_cases s.tasks a.task_id id (mkTask a) t hl with ⟨hEq, _⟩ | ⟨_, hl'⟩
    · exact absurd hEq hidne
    · exact h.inflRunning id hid t hl'
  · intro id t hl hst
    rcases alookup_upsert_cases s.tasks a.task_id id (mkTask a) t hl with ⟨hEq, hT⟩ | ⟨_, hl'⟩
    · rw [hT] at hst
      simp [mkTask] at hst
    · exact h.runningInfl id t hl' hst
  · intro e he t hl
    rcases List.mem_append.1 he with he | he
    · have heid : e.id ≠ a.task_id := hne e.id (h.qKeys e he)
      have hl2 : alookup e.id (upsert a.task_id (mkTask a) s.tasks) = some t := hl
      rw [alookup_upsert_ne s.tasks a.task_id e.id (mkTask a) heid] at hl2
      exact h.qStat e he t hl2
    · have heq : e = mkEntry (mkTask a) := by simpa using he
      subst heq
      have hl2 : alookup a.task_id (upsert a.task_id (mkTask a) s.tasks) = some t := hl
      rw [alookup_upsert_self s.tasks a.task_id (mkTask a)] at hl2
      injection hl2 with hEq
      rw [← hEq]
      exact Or.inl rfl
  · intro id hid t hl
    have hidne : id ≠ a.task_id := fun hh => hrmem (hh ▸ hid)
    have hl2 : alookup id (upsert a.task_id (mkTask a) s.tasks) = some t := hl
    rw [alookup_upsert_ne s.tasks a.task_id id (mkTask a) hidne] at hl2
    exact h.runNotComp id hid t hl2
  · intro id t hl
    rcases alookup_upsert_cases s.tasks a.task_id id (mkTask a) t hl with ⟨_, hT⟩ | ⟨_, hl'⟩
    · rw [hT]
      exact Or.inl rfl
    · exact h.statLegal id t hl'
  · intro id t hl hst
    rcases alookup_upsert_cases s.tasks a.task_id id (mkTask a) t hl with ⟨_, hT⟩ | ⟨_, hl'⟩
    · rw [hT] at hst
      simp [mkTask] at hst
    · exact h.failErr id t hl' hst
  · intro id t hl hst
    rcases alookup_upsert_cases s.tasks a.task_id id (mkTask a) t hl with ⟨_, hT⟩ | ⟨_, hl'⟩
    · rw [hT] at hst
      simp [mkTask] at hst
    · exact h.compRes id t hl' hst

theorem one_le_idCount_of_mem (l : List String) (id : String) (h : id ∈ l) :
    1 ≤ idCount id l := by
  rcases Nat.eq_zero_or_pos (idCount id l) with h0 | h0
  · exact absurd h ((idCount_eq_zero_iff id l).1 h0)
  · exact h0

theorem one_le_qCount_of_mem (q : List Entry) (e : Entry) (h : e ∈ q) :
    1 ≤ qCount e.id q := by
  rcases Nat.eq_zero_or_pos (qCount e.id q) with h0 | h0
  · exact absurd rfl ((qCount_eq_zero_iff e.id q).1 h0 e h)
  · exact h0

theorem inv_cancel (s : SchedState) (id : String) (now : Int) (h : Inv s) :
    Inv (applyEv (Ev.cancel id now) s) := by
  show Inv (cancelTask s id now).2
  unfold cancelTask
  split
  · exact h
  · next t hl =>
    have hmem := alookup_mem_keys s.tasks id t hl
    have href := h.ref1 id
    split
    · split
      · next hin =>
        have hiC : 1 ≤ idCount id s.inflight := one_le_idCount_of_mem s.inflight id hin
        have hpnot : id ∉ s.pending := by
          refine (idCount_eq_zero_iff id s.pending).1 ?_
          omega
        have hiC1 : idCount id s.inflight ≤ 1 := by omega
        have hinerase : id ∉ eraseId id s.inflight :=
          not_mem_eraseId_of_count_le_one s.inflight id hiC1
        have hkeys : keys (upsert id
            { t with status := "cancelled", end_time := some now } s.tasks) = keys s.tasks :=
          keys_upsert_of_mem s.tasks id _ hmem
        refine ⟨?_, ?_, ?_, ?_, ?_, ?_, ?_, ?_, ?_, ?_, ?_, ?_, ?_, ?_, ?_, ?_, ?_⟩
        · exact hkeys ▸ h.ndKeys
        · exact eraseId_nodup s.running id h.ndRun
        · exact le_trans (length_eraseId_le s.running id) h.cap
        · exact keyed_upsert s.tasks id _ h.keyed (h.keyed id t hl)
        · intro id' hid'
          have hne : id' ≠ id := fun hh => hpnot (hh ▸ hid')
          exact mem_eraseId_of_ne s.running id id' (h.pendRun id' hid') hne
        · intro id' hid'
          have hin' := mem_of_mem_eraseId s.inflight id id' hid'
          have hne : id' ≠ id := fun hh => hinerase (hh ▸ hid')
          exact mem_eraseId_of_ne s.running id id' (h.inflRun id' hin') hne
        · intro id' hid'
          have hh := h.runKeys id' (mem_of_mem_eraseId s.running id id' hid')
          rw [← hkeys] at hh
          exact hh
        · intro e he
          have hh := h.qKeys e he
          rw [← hkeys] at hh
          exact hh
        · intro id'
          show qCount id' s.queue + idCount id' s.pending +
            idCount id' (eraseId id s.inflight) ≤ 1
          have hh := h.ref1 id'
          have he := idCount_eraseId_le s.inflight id id'
          omega
        · intro id' hid' t' hl'
          have hne : id' ≠ id := fun hh => hpnot (hh ▸ hid')
          have hl2 : alookup id' (upsert id
              { t with status := "cancelled", end_time := some now } s.tasks) = some t' := hl'
          rw [alookup_upsert_ne s.tasks id id' _ hne] at hl2
          exact h.pendSched id' hid' t' hl2
        · intro id' hid' t' hl'
          have hin' := mem_of_mem_eraseId s.inflight id id' hid'
          have hne : id' ≠ id := fun hh => hinerase (hh ▸ hid')
          have hl2 : alookup id' (upsert id
              { t with status := "cancelled", end_time := some now } s.tasks) = some t' := hl'
          rw [alookup_upsert_ne s.tasks id id' _ hne] at hl2
          exact h.inflRunning id' hin' t' hl2
        · intro id' t' hl' hst'
          rcases alookup_upsert_cases s.tasks id id' _ t' hl' with ⟨hEq, hT⟩ | ⟨hne, hl2⟩
          · rw [hT] at hst'
            simp at hst'
          · exact mem_eraseId_of_ne s.inflight id id' (h.runningInfl id' t' hl2 hst') hne
        · intro e he t' hl'
          rcases alookup_upsert_cases s.tasks id e.id _ t' hl' with ⟨hEq, hT⟩ | ⟨hne, hl2⟩
          · rw [hT]
            exact Or.inr rfl
          · exact h.qStat e he t' hl2
        · intro id' hid' t' hl'
          have hne : id' ≠ id :=
            fun hh => (not_mem_eraseId_self s.running id h.ndRun) (hh ▸ hid')
          have hrun' := mem_of_mem_eraseId s.running id id' hid'
          rcases alookup_upsert_cases s.tasks id id' _ t' hl' with ⟨hEq, _⟩ | ⟨_, hl2⟩
          · exact absurd hEq hne
          · exact h.runNotComp id' hrun' t' hl2
        · intro id' t' hl'
          rcases alookup_upsert_cases s.tasks id id' _ t' hl' with ⟨_, hT⟩ | ⟨_, hl2⟩
          · rw [hT]
            exact Or.inr (Or.inr (Or.inr (Or.inr rfl)))
          · exact h.statLegal id' t' hl2
        · intro id' t' hl' hst'
          rcases alookup_upsert_cases s.tasks id id' _ t' hl' with ⟨_, hT⟩ | ⟨_, hl2⟩
          · rw [hT] at hst'
            simp at hst'
          · exact h.failErr id' t' hl2 hst'
        · intro id' t' hl' hst'
          rcases alookup_upsert_cases s.tasks id id' _ t' hl' with ⟨_, hT⟩ | ⟨_, hl2⟩
          · rw [hT] at hst'
            simp at hst'
          · exact h.compRes id' t' hl2 hst'
      · next hinn =>
        split
        · next hp =>
          have hpC : 1 ≤ idCount id s.pending := one_le_idCount_of_mem s.pending id hp
          have hpC1 : idCount id s.pending ≤ 1 := by omega
          have hperase : id ∉ eraseId id s.pending :=
            not_mem_eraseId_of_count_le_one s.pending id hpC1
          have hkeys : keys (upsert id
              { t with status := "cancelled" } s.tasks) = keys s.tasks :=
            keys_upsert_of_mem s.tasks id _ hmem
          refine ⟨?_, h.ndRun, h.cap, ?_, ?_, ?_, ?_, ?_, ?_, ?_, ?_, ?_, ?_, ?_, ?_, ?_, ?_⟩
          · exact hkeys ▸ h.ndKeys
          · exact keyed_upsert s.tasks id _ h.keyed (h.keyed id t hl)
          · intro id' hid'
            exact h.pendRun id' (mem_of_mem_eraseId s.pending id id' hid')
          · exact h.inflRun
          · intro id' hid'
            have hh := h.runKeys id' hid'
            rw [← hkeys] at hh
            exact hh
          · intro e he
            have hh := h.qKeys e he
            rw [← hkeys] at hh
            exact hh
          · intro id'
            show qCount id' s.queue + idCount id' (eraseId id s.pending) +
              idCount id' s.inflight ≤ 1
            have hh := h.ref1 id'
            have he := idCount_eraseId_le s.pending id id'
            omega
          · intro id' hid' t' hl'
            have hp' := mem_of_mem_eraseId s.pending id id' hid'
            have hne : id' ≠ id := fun hh => hperase (hh ▸ hid')
            have hl2 : alookup id' (upsert id
                { t with status := "cancelled" } s.tasks) = some t' := hl'
            rw [alookup_upsert_ne s.tasks id id' _ hne] at hl2
            exact h.pendSched id' hp' t' hl2
          · intro id' hid' t' hl'
            have hne : id' ≠ id := fun hh => hinn (hh ▸ hid')
            have hl2 : alookup id' (upsert id
                { t with status := "cancelled" } s.tasks) = some t' := hl'
            rw [alookup_upsert_ne s.tasks id id' _ hne] at hl2
            exact h.inflRunning id' hid' t' hl2
          · intro id' t' hl' hst'
            rcases alookup_upsert_cases s.tasks id id' _ t' hl' with ⟨hEq, hT⟩ | ⟨hne, hl2⟩
            · rw [hT] at hst'
              simp at hst'
            · exact h.runningInfl id' t' hl2 hst'
          · intro e he t' hl'
            rcases alookup_upsert_cases s.tasks id e.id _ t' hl' with ⟨hEq, hT⟩ | ⟨hne, hl2⟩
            · rw [hT]
              exact Or.inr rfl
            · exact h.qStat e he t' hl2
          · intro id' hid' t' hl'
            rcases alookup_upsert_cases s.tasks id id' _ t' hl' with ⟨hEq, hT⟩ | ⟨_, hl2⟩
            · rw [hT]
              simp
            · exact h.runNotComp id' hid' t' hl2
          · intro id' t' hl'
            rcases alookup_upsert_cases s.tasks id id' _ t' hl' with ⟨_, hT⟩ | ⟨_, hl2⟩
            · rw [hT]
              exact Or.inr (Or.inr (Or.inr (Or.inr rfl)))
            · exact h.statLegal id' t' hl2
          · intro id' t' hl' hst'
            rcases alookup_upsert_cases s.tasks id id' _ t' hl' with ⟨_, hT⟩ | ⟨_, hl2⟩
            · rw [hT] at hst'
              simp at hst'
            · exact h.failErr id' t' hl2 hst'
          · intro id' t' hl' hst'
            rcases alookup_upsert_cases s.tasks id id' _ t' hl' with ⟨_, hT⟩ | ⟨_, hl2⟩
            · rw [hT] at hst'
              simp at hst'
            · exact h.compRes id' t' hl2 hst'
        · next hpn =>
          have hkeys : keys (upsert id
              { t with status := "cancelled" } s.tasks) = keys s.tasks :=
            keys_upsert_of_mem s.tasks id _ hmem
          refine ⟨?_, h.ndRun, h.cap, ?_, h.pendRun, h.inflRun, ?_, ?_, h.ref1, ?_, ?_, ?_, ?_, ?_, ?_, ?_, ?_⟩
          · exact hkeys ▸ h.ndKeys
          · exact keyed_upsert s.tasks id _ h.keyed (h.keyed id t hl)
          · intro id' hid'
            have hh := h.runKeys id' hid'
            rw [← hkeys] at hh
            exact hh
          · intro e he
            have hh := h.qKeys e he
            rw [← hkeys] at hh
            exact hh
          · intro id' hid' t' hl'
            have hne : id' ≠ id := fun hh => hpn (hh ▸ hid')
            have hl2 : alookup id' (upsert id
                { t with status := "cancelled" } s.tasks) = some t' := hl'
            rw [alookup_upsert_ne s.tasks id id' _ hne] at hl2
            exact h.pendSched id' hid' t' hl2
          · intro id' hid' t' hl'
            have hne : id' ≠ id := fun hh => hinn (hh ▸ hid')
            have hl2 : alookup id' (upsert id
                { t with status := "cancelled" } s.tasks) = some t' := hl'
            rw [alookup_upsert_ne s.tasks id id' _ hne] at hl2
            exact h.inflRunning id' hid' t' hl2
          · intro id' t' hl' hst'
            rcases alookup_upsert_cases s.tasks id id' _ t' hl' with ⟨hEq, hT⟩ | ⟨hne, hl2⟩
            · rw [hT] at hst'
              simp at hst'
            · exact h.runningInfl id' t' hl2 hst'
          · intro e he t' hl'
            rcases alookup_upsert_cases s.tasks id e.id _ t' hl' with ⟨hEq, hT⟩ | ⟨hne, hl2⟩
            · rw [hT]
              exact Or.inr rfl
            · exact h.qStat e he t' hl2
          · intro id' hid' t' hl'
            rcases alookup_upsert_cases s.tasks id id' _ t' hl' with ⟨hEq, hT⟩ | ⟨_, hl2⟩
            · rw [hT]
              simp
            · exact h.runNotComp id' hid' t' hl2
          · intro id' t' hl'
            rcases alookup_upsert_cases s.tasks id id' _ t' hl' with ⟨_, hT⟩ | ⟨_, hl2⟩
            · rw [hT]
              exact Or.inr (Or.inr (Or.inr (Or.inr rfl)))
            · exact h.statLegal id' t' hl2
          · intro id' t' hl' hst'
            rcases alookup_upsert_cases s.tasks id id' _ t' hl' with ⟨_, hT⟩ | ⟨_, hl2⟩
            · rw [hT] at hst'
              simp at hst'
            · exact h.failErr id' t' hl2 hst'
          · intro id' t' hl' hst'
            rcases alookup_upsert_cases s.tasks id id' _ t' hl' with ⟨_, hT⟩ | ⟨_, hl2⟩
            · rw [hT] at hst'
              simp at hst'
            · exact h.compRes id' t' hl2 hst'
    · exact h

theorem inv_queue_erase1 (s : SchedState) (e : Entry) (h : Inv s) :
    Inv { s with queue := erase1 e s.queue } := by
  refine ⟨h.ndKeys, h.ndRun, h.cap, h.keyed, h.pendRun, h.inflRun, h.runKeys, ?_, ?_,
    h.pendSched, h.inflRunning, h.runningInfl, ?_, h.runNotComp, h.statLegal,
    h.failErr, h.compRes⟩
  · intro e' he'
    exact h.qKeys e' (mem_of_mem_erase1 s.queue e e' he')
  · intro id'
    show qCount id' (erase1 e s.queue) + idCount id' s.pending + idCount id' s.inflight ≤ 1
    have hh := h.ref1 id'
    have hq := qCount_erase1_le s.queue e id'
    omega
  · intro e' he' t' hl'
    exact h.qStat e' (mem_of_mem_erase1 s.queue e e' he') t' hl'

theorem inv_dispatch (s : SchedState) (now : Int) (h : Inv s) :
    Inv (applyEv (Ev.dispatch now) s) := by
  show Inv (dispatchStep s now)
  unfold dispatchStep
  split
  · exact h
  · split
    · exact h
    · next hcap' =>
      split
      · exact h
      · next e heq =>
        have hemem := popMin_mem s.queue e heq
        have heC : 1 ≤ qCount e.id s.queue := one_le_qCount_of_mem s.queue e hemem
        have hrefe := h.ref1 e.id
        have hqe : qCount e.id (erase1 e s.queue) + 1 = qCount e.id s.queue :=
          qCount_erase1_self s.queue e hemem
        split
        · exact inv_queue_erase1 s e h
        · next t hl =>
          have htid : t.task_id = e.id := h.keyed e.id t hl
          split
          · exact inv_queue_erase1 s e h
          · next hnc =>
            have hsched : t.status = "scheduled" := by
              rcases h.qStat e hemem t hl with hh | hh
              · exact hh
              · exact absurd hh hnc
            split
            · -- not ready yet: requeue with an entry built from the task fields
              refine ⟨h.ndKeys, h.ndRun, h.cap, h.keyed, h.pendRun, h.inflRun, h.runKeys,
                ?_, ?_, h.pendSched, h.inflRunning, h.runningInfl, ?_, h.runNotComp,
                h.statLegal, h.failErr, h.compRes⟩
              · intro e' he'
                rcases List.mem_append.1 he' with he' | he'
                · exact h.qKeys e' (mem_of_mem_erase1 s.queue e e' he')
                · have heq' : e' = mkEntry t := by simpa using he'
                  rw [heq']
                  show t.task_id ∈ keys s.tasks
                  rw [htid]
                  exact alookup_mem_keys s.tasks e.id t hl
              · intro id'
                show qCount id' (erase1 e s.queue ++ [mkEntry t]) +
                  idCount id' s.pending + idCount id' s.inflight ≤ 1
                have hh := h.ref1 id'
                have hsplit : qCount id' (erase1 e s.queue ++ [mkEntry t]) =
                    qCount id' (erase1 e s.queue) +
                      (if (mkEntry t).id = id' then 1 else 0) := by
                  rw [qCount_append, qCount_cons]
                  have hnil : qCount id' ([] : List Entry) = 0 := rfl
                  omega
                by_cases hid : id' = e.id
                · subst hid
                  rw [hsplit, if_pos (show (mkEntry t).id = e.id from htid)]
                  omega
                · have hq := qCount_erase1_ne s.queue e id' (fun hh' => hid hh')
                  rw [hsplit, if_neg (show ¬ (mkEntry t).id = id' from
                    fun hh' => hid (by rw [← hh']; exact htid))]
                  omega
              · intro e' he' t' hl'
                rcases List.mem_append.1 he' with he' | he'
                · exact h.qStat e' (mem_of_mem_erase1 s.queue e e' he') t' hl'
                · have heq' : e' = mkEntry t := by simpa using he'
                  subst heq'
                  have hl2 : alookup t.task_id s.tasks = some t' := hl'
                  rw [htid, hl] at hl2
                  injection hl2 with hEq
                  rw [← hEq]
                  exact Or.inl hsched
            · -- dispatch: track the id in running_tasks and hand to a runner
              have hcap : s.running.length < s.maxConc := Nat.not_le.1 hcap'
              refine ⟨h.ndKeys, ?_, ?_, h.keyed, ?_, ?_, ?_, ?_, ?_, ?_, h.inflRunning,
                h.runningInfl, ?_, ?_, h.statLegal, h.failErr, h.compRes⟩
              · exact pushId_nodup s.running e.id h.ndRun
              · exact length_pushId_le s.running e.id s.maxConc hcap
              · intro id' hid'
                rcases List.mem_append.1 hid' with hid' | hid'
                · exact (mem_pushId s.running e.id id').2 (Or.inl (h.pendRun id' hid'))
                · have hide : id' = e.id := by simpa using hid'
                  rw [hide]
                  exact (mem_pushId s.running e.id e.id).2 (Or.inr rfl)
              · intro id' hid'
                exact (mem_pushId s.running e.id id').2 (Or.inl (h.inflRun id' hid'))
              · intro id' hid'
                rcases (mem_pushId s.running e.id id').1 hid' with hid' | hid'
                · exact h.runKeys id' hid'
                · rw [hid']
                  exact alookup_mem_keys s.tasks e.id t hl
              · intro e' he'
                exact h.qKeys e' (mem_of_mem_erase1 s.queue e e' he')
              · intro id'
                show qCount id' (erase1 e s.queue) +
                  idCount id' (s.pending ++ [e.id]) + idCount id' s.inflight ≤ 1
                have hh := h.ref1 id'
                have hnil : idCount id' ([] : List String) = 0 := rfl
                rw [idCount_append, idCount_cons]
                by_cases hid : id' = e.id
                · subst hid
                  rw [if_pos rfl]
                  omega
                · rw [if_neg (fun hh' : e.id = id' => hid hh'.symm)]
                  have hq := qCount_erase1_ne s.queue e id' hid
                  omega
              · intro id' hid' t' hl'
                rcases List.mem_append.1 hid' with hid' | hid'
                · exact h.pendSched id' hid' t' hl'
                · have hide : id' = e.id := by simpa using hid'
                  subst hide
                  have hl2 : alookup e.id s.tasks = some t' := hl'
                  rw [hl] at hl2
                  injection hl2 with hEq
                  rw [← hEq]
                  exact hsched
              · intro e' he' t' hl'
                exact h.qStat e' (mem_of_mem_erase1 s.queue e e' he') t' hl'
              · intro id' hid' t' hl'
                rcases (mem_pushId s.running e.id id').1 hid' with hid' | hid'
                · exact h.runNotComp id' hid' t' hl'
                · subst hid'
                  have hl2 : alookup e.id s.tasks = some t' := hl'
                  rw [hl] at hl2
                  injection hl2 with hEq
                  rw [← hEq, hsched]
                  simp

theorem inv_execBegin (s : SchedState) (id : String) (now : Int) (h : Inv s) :
    Inv (applyEv (Ev.execBegin id now) s) := by
  show Inv (execStart s id now)
  unfold execStart
  split
  · next hp =>
    have hpC : 1 ≤ idCount id s.pending := one_le_idCount_of_mem s.pending id hp
    have href := h.ref1 id
    have hq0 : qCount id s.queue = 0 := by omega
    have hi0 : idCount id s.inflight = 0 := by omega
    have hinotin : id ∉ s.inflight := (idCount_eq_zero_iff id s.inflight).1 hi0
    have hqne : ∀ e ∈ s.queue, e.id ≠ id := (qCount_eq_zero_iff id s.queue).1 hq0
    have hpC1 : idCount id s.pending ≤ 1 := by omega
    have hperase : id ∉ eraseId id s.pending :=
      not_mem_eraseId_of_count_le_one s.pending id hpC1
    have hpself : idCount id (eraseId id s.pending) + 1 = idCount id s.pending :=
      idCount_eraseId_self s.pending id hp
    split
    · refine ⟨h.ndKeys, h.ndRun, h.cap, h.keyed, ?_, h.inflRun, h.runKeys, h.qKeys, ?_,
        ?_, h.inflRunning, h.runningInfl, h.qStat, h.runNotComp, h.statLegal,
        h.failErr, h.compRes⟩
      · intro id' hid'
        exact h.pendRun id' (mem_of_mem_eraseId s.pending id id' hid')
      · intro id'
        show qCount id' s.queue + idCount id' (eraseId id s.pending) +
          idCount id' s.inflight ≤ 1
        have hh := h.ref1 id'
        have he := idCount_eraseId_le s.pending id id'
        omega
      · intro id' hid' t' hl'
        exact h.pendSched id' (mem_of_mem_eraseId s.pending id id' hid') t' hl'
    · next t hl =>
      have hmem := alookup_mem_keys s.tasks id t hl
      split
      · -- handler registered: mark running, move the runner in flight
        have hkeys : keys (upsert id
            { t with status := "running", start_time := some now } s.tasks) = keys s.tasks :=
          keys_upsert_of_mem s.tasks id _ hmem
        refine ⟨?_, h.ndRun, h.cap, ?_, ?_, ?_, ?_, ?_, ?_, ?_, ?_, ?_, ?_, ?_, ?_, ?_, ?_⟩
        · exact hkeys ▸ h.ndKeys
        · exact keyed_upsert s.tasks id _ h.keyed (h.keyed id t hl)
        · intro id' hid'
          exact h.pendRun id' (mem_of_mem_eraseId s.pending id id' hid')
        · intro id' hid'
          rcases List.mem_append.1 hid' with hid' | hid'
          · exact h.inflRun id' hid'
          · have hide : id' = id := by simpa using hid'
            rw [hide]
            exact h.pendRun id hp
        · intro id' hid'
          have hh := h.runKeys id' hid'
          rw [← hkeys] at hh
          exact hh
        · intro e he
          have hh := h.qKeys e he
          rw [← hkeys] at hh
          exact hh
        · intro id'
          show qCount id' s.queue + idCount id' (eraseId id s.pending) +
            idCount id' (s.inflight ++ [id]) ≤ 1
          have hh := h.ref1 id'
          have hnil : idCount id' ([] : List String) = 0 := rfl
          rw [idCount_append, idCount_cons]
          by_cases hid : id' = id
          · subst hid
            rw [if_pos rfl]
            omega
          · rw [if_neg (fun hh' : id = id' => hid hh'.symm)]
            have he := idCount_eraseId_le s.pending id id'
            omega
        · intro id' hid' t' hl'
          have hp' := mem_of_mem_eraseId s.pending id id' hid'
          have hne : id' ≠ id := fun hh => hperase (hh ▸ hid')
          have hl2 : alookup id' (upsert id
              { t with status := "running", start_time := some now } s.tasks) = some t' := hl'
          rw [alookup_upsert_ne s.tasks id id' _ hne] at hl2
          exact h.pendSched id' hp' t' hl2
        · intro id' hid' t' hl'
          rcases List.mem_append.1 hid' with hid' | hid'
          · have hne : id' ≠ id := fun hh => hinotin (hh ▸ hid')
            have hl2 : alookup id' (upsert id
                { t with status := "running", start_time := some now } s.tasks) = some t' := hl'
            rw [alookup_upsert_ne s.tasks id id' _ hne] at hl2
            exact h.inflRunning id' hid' t' hl2
          · have hide : id' = id := by simpa using hid'
            subst hide
            have hl2 : alookup id' (upsert id'
                { t with status := "running", start_time := some now } s.tasks) = some t' := hl'
            rw [alookup_upsert_self] at hl2
            injection hl2 with hEq
            rw [← hEq]
        · intro id' t' hl' hst'
          rcases alookup_upsert_cases s.tasks id id' _ t' hl' with ⟨hEq, hT⟩ | ⟨hne, hl2⟩
          · subst hEq
            exact List.mem_append_right s.inflight (List.mem_cons_self id' [])
          · exact List.mem_append_left _ (h.runningInfl id' t' hl2 hst')
        · intro e he t' hl'
          have hne : e.id ≠ id := hqne e he
          have hl2 : alookup e.id (upsert id
              { t with status := "running", start_time := some now } s.tasks) = some t' := hl'
          rw [alookup_upsert_ne s.tasks id e.id _ hne] at hl2
          exact h.qStat e he t' hl2
        · intro id' hid' t' hl'
          rcases alookup_upsert_cases s.tasks id id' _ t' hl' with ⟨hEq, hT⟩ | ⟨_, hl2⟩
          · rw [hT]
            simp
          · exact h.runNotComp id' hid' t' hl2
        · intro id' t' hl'
          rcases alookup_upsert_cases s.tasks id id' _ t' hl' with ⟨_, hT⟩ | ⟨_, hl2⟩
          · rw [hT]
            exact Or.inr (Or.inl rfl)
          · exact h.statLegal id' t' hl2
        · intro id' t' hl' hst'
          rcases alookup_upsert_cases s.tasks id id' _ t' hl' with ⟨_, hT⟩ | ⟨_, hl2⟩
          · rw [hT] at hst'
            simp at hst'
          · exact h.failErr id' t' hl2 hst'
        · intro id' t' hl' hst'
          rcases alookup_upsert_cases s.tasks id id' _ t' hl' with ⟨_, hT⟩ | ⟨_, hl2⟩
          · rw [hT] at hst'
            simp at hst'
          · exact h.compRes id' t' hl2 hst'
      · -- missing handler: fail in place, runner returns early
        have hkeys : keys (upsert id
            { t with status := "failed", error := some (noHandlerMsg t) } s.tasks) =
            keys s.tasks :=
          keys_upsert_of_mem s.tasks id _ hmem
        refine ⟨?_, h.ndRun, h.cap, ?_, ?_, h.inflRun, ?_, ?_, ?_, ?_, ?_, ?_, ?_, ?_, ?_, ?_, ?_⟩
        · exact hkeys ▸ h.ndKeys
        · exact keyed_upsert s.tasks id _ h.keyed (h.keyed id t hl)
        · intro id' hid'
          exact h.pendRun id' (mem_of_mem_eraseId s.pending id id' hid')
        · intro id' hid'
          have hh := h.runKeys id' hid'
          rw [← hkeys] at hh
          exact hh
        · intro e he
          have hh := h.qKeys e he
          rw [← hkeys] at hh
          exact hh
        · intro id'
          show qCount id' s.queue + idCount id' (eraseId id s.pending) +
            idCount id' s.inflight ≤ 1
          have hh := h.ref1 id'
          have he := idCount_eraseId_le s.pending id id'
          omega
        · intro id' hid' t' hl'
          have hp' := mem_of_mem_eraseId s.pending id id' hid'
          have hne : id' ≠ id := fun hh => hperase (hh ▸ hid')
          have hl2 : alookup id' (upsert id
              { t with status := "failed", error := some (noHandlerMsg t) } s.tasks) =
              some t' := hl'
          rw [alookup_upsert_ne s.tasks id id' _ hne] at hl2
          exact h.pendSched id' hp' t' hl2
        · intro id' hid' t' hl'
          have hne : id' ≠ id := fun hh => hinotin (hh ▸ hid')
          have hl2 : alookup id' (upsert id
              { t with status := "failed", error := some (noHandlerMsg t) } s.tasks) =
              some t' := hl'
          rw [alookup_upsert_ne s.tasks id id' _ hne] at hl2
          exact h.inflRunning id' hid' t' hl2
        · intro id' t' hl' hst'
          rcases alookup_upsert_cases s.tasks id id' _ t' hl' with ⟨hEq, hT⟩ | ⟨hne, hl2⟩
          · rw [hT] at hst'
            simp at hst'
          · exact h.runningInfl id' t' hl2 hst'
        · intro e he t' hl'
          have hne : e.id ≠ id := hqne e he
          have hl2 : alookup e.id (upsert id
              { t with status := "failed", error := some (noHandlerMsg t) } s.tasks) =
              some t' := hl'
          rw [alookup_upsert_ne s.tasks id e.id _ hne] at hl2
          exact h.qStat e he t' hl2
        · intro id' hid' t' hl'
          rcases alookup_upsert_cases s.tasks id id' _ t' hl' with ⟨hEq, hT⟩ | ⟨_, hl2⟩
          · rw [hT]
            simp
          · exact h.runNotComp id' hid' t' hl2
        · intro id' t' hl'
          rcases alookup_upsert_cases s.tasks id id' _ t' hl' with ⟨_, hT⟩ | ⟨_, hl2⟩
          · rw [hT]
            exact Or.inr (Or.inr (Or.inr (Or.inl rfl)))
          · exact h.statLegal id' t' hl2
        · intro id' t' hl' hst'
          rcases alookup_upsert_cases s.tasks id id' _ t' hl' with ⟨_, hT⟩ | ⟨_, hl2⟩
          · rw [hT]
            simp
          · exact h.failErr id' t' hl2 hst'
        · intro id' t' hl' hst'
          rcases alookup_upsert_cases s.tasks id id' _ t' hl' with ⟨_, hT⟩ | ⟨_, hl2⟩
          · rw [hT] at hst'
            simp at hst'
          · exact h.compRes id' t' hl2 hst'
  · exact h

theorem applyOutcome_status_ne_running (t : Task) (oc : Outcome) (now : Int) :
    (applyOutcome t oc now).1.status ≠ "running" := by
  unfold applyOutcome
  cases oc with
  | success v => simp
  | timeout =>
    by_cases hrc : t.retry_count < t.max_retries
    · simp [hrc]
    · simp [hrc]
  | failure msg =>
    by_cases hrc : t.retry_count < t.max_retries
    · simp [hrc]
    · simp [hrc]

theorem applyOutcome_statLegal (t : Task) (oc : Outcome) (now : Int) :
    (applyOutcome t oc now).1.status = "completed" ∨
    (applyOutcome t oc now).1.status = "failed" ∨
    (applyOutcome t oc now).1.status = "scheduled" := by
  unfold applyOutcome
  cases oc with
  | success v => simp
  | timeout =>
    by_cases hrc : t.retry_count < t.max_retries
    · simp [hrc]
    · simp [hrc]
  | failure msg =>
    by_cases hrc : t.retry_count < t.max_retries
    · simp [hrc]
    · simp [hrc]

theorem applyOutcome_failed_error (t : Task) (oc : Outcome) (now : Int)
    (h : (applyOutcome t oc now).1.status = "failed") :
    (applyOutcome t oc now).1.error ≠ none := by
  revert h
  unfold applyOutcome
  cases oc with
  | success v =>
    intro h
    simp at h
  | timeout =>
    by_cases hrc : t.retry_count < t.max_retries
    · simp [hrc]
    · simp [hrc]
  | failure msg =>
    by_cases hrc : t.retry_count < t.max_retries
    · simp [hrc]
    · simp [hrc]

theorem applyOutcome_completed_result (t : Task) (oc : Outcome) (now : Int)
    (h : (applyOutcome t oc now).1.status = "completed") :
    (applyOutcome t oc now).1.result ≠ none := by
  revert h
  unfold applyOutcome
  cases oc with
  | success v => simp
  | timeout =>
    by_cases hrc : t.retry_count < t.max_retries
    · simp [hrc]
    · simp [hrc]
  | failure msg =>
    by_cases hrc : t.retry_count < t.max_retries
    · simp [hrc]
    · simp [hrc]

theorem applyOutcome_entry_inv (t : Task) (oc : Outcome) (now : Int) (e : Entry)
    (h : (applyOutcome t oc now).2 = some e) :
    e = mkEntry (applyOutcome t oc now).1 ∧
    (applyOutcome t oc now).1.status = "scheduled" := by
  revert h
  unfold applyOutcome
  cases oc with
  | success v =>
    intro h
    simp at h
  | timeout =>
    by_cases hrc : t.retry_count < t.max_retries
    · intro h
      simp only [hrc, if_pos] at h ⊢
      injection h with hEq
      exact ⟨hEq.symm, trivial⟩
    · intro h
      simp [hrc] at h
  | failure msg =>
    by_cases hrc : t.retry_count < t.max_retries
    · intro h
      simp only [hrc, if_pos] at h ⊢
      injection h with hEq
      exact ⟨hEq.symm, trivial⟩
    · intro h
      simp [hrc] at h

theorem inv_execEnd (s : SchedState) (id : String) (oc : Outcome) (now : Int) (h : Inv s) :
    Inv (applyEv (Ev.execEnd id oc now) s) := by
  show Inv (execFinish s id oc now)
  unfold execFinish
  split
  · next hin =>
    have hiC : 1 ≤ idCount id s.inflight := one_le_idCount_of_mem s.inflight id hin
    have href := h.ref1 id
    have hq0 : qCount id s.queue = 0 := by omega
    have hp0 : idCount id s.pending = 0 := by omega
    have hpnot : id ∉ s.pending := (idCount_eq_zero_iff id s.pending).1 hp0
    have hqne : ∀ e ∈ s.queue, e.id ≠ id := (qCount_eq_zero_iff id s.queue).1 hq0
    have hiC1 : idCount id s.inflight ≤ 1 := by omega
    have hierase : id ∉ eraseId id s.inflight :=
      not_mem_eraseId_of_count_le_one s.inflight id hiC1
    have hiself : idCount id (eraseId id s.inflight) + 1 = idCount id s.inflight :=
      idCount_eraseId_self s.inflight id hin
    have hrerase : id ∉ eraseId id s.running := not_mem_eraseId_self s.running id h.ndRun
    split
    · -- the id was not in the task map: only the runner bookkeeping changes
      next hlnone =>
      refine ⟨h.ndKeys, h.ndRun, h.cap, h.keyed, h.pendRun, ?_, h.runKeys, h.qKeys, ?_,
        h.pendSched, ?_, ?_, h.qStat, h.runNotComp, h.statLegal, h.failErr, h.compRes⟩
      · intro id' hid'
        exact h.inflRun id' (mem_of_mem_eraseId s.inflight id id' hid')
      · intro id'
        show qCount id' s.queue + idCount id' s.pending +
          idCount id' (eraseId id s.inflight) ≤ 1
        have hh := h.ref1 id'
        have he := idCount_eraseId_le s.inflight id id'
        omega
      · intro id' hid' t' hl'
        exact h.inflRunning id' (mem_of_mem_eraseId s.inflight id id' hid') t' hl'
      · intro id' t' hl' hst'
        have hne : id' ≠ id := by
          intro hh
          rw [hh, hlnone] at hl'
          exact Option.noConfusion hl'
        exact mem_eraseId_of_ne s.inflight id id' (h.runningInfl id' t' hl' hst') hne
    · next t hl =>
      show Inv (doSave { s with
        tasks := upsert id ({ (applyOutcome t oc now).1 with end_time := some now }) s.tasks,
        queue := (match (applyOutcome t oc now).2 with
          | some e => s.queue ++ [e]
          | none => s.queue),
        inflight := eraseId id s.inflight,
        running := eraseId id s.running,
        callbacks :=
          if truthyStr ({ (applyOutcome t oc now).1 with
                end_time := some now } : Task).callback_url = true ∧
              (({ (applyOutcome t oc now).1 with
                end_time := some now } : Task).status = "completed" ∨
               ({ (applyOutcome t oc now).1 with
                end_time := some now } : Task).status = "failed")
          then s.callbacks ++ [({ (applyOutcome t oc now).1 with
                end_time := some now } : Task).to_dict]
          else s.callbacks })
      have hmem := alookup_mem_keys s.tasks id t hl
      have ht2id : ({ (applyOutcome t oc now).1 with end_time := some now } : Task).task_id
          = id := by
        show (applyOutcome t oc now).1.task_id = id
        rw [applyOutcome_task_id]
        exact h.keyed id t hl
      have hkeys : keys (upsert id
          ({ (applyOutcome t oc now).1 with end_time := some now }) s.tasks) = keys s.tasks :=
        keys_upsert_of_mem s.tasks id _ hmem
      cases hr2 : (applyOutcome t oc now).2 with
      | none =>
        refine ⟨?_, ?_, ?_, ?_, ?_, ?_, ?_, ?_, ?_, ?_, ?_, ?_, ?_, ?_, ?_, ?_, ?_⟩
        · exact hkeys ▸ h.ndKeys
        · exact eraseId_nodup s.running id h.ndRun
        · exact le_trans (length_eraseId_le s.running id) h.cap
        · exact keyed_upsert s.tasks id _ h.keyed ht2id
        · intro id' hid'
          have hne : id' ≠ id := fun hh => hpnot (hh ▸ hid')
          exact mem_eraseId_of_ne s.running id id' (h.pendRun id' hid') hne
        · intro id' hid'
          have hin' := mem_of_mem_eraseId s.inflight id id' hid'
          have hne : id' ≠ id := fun hh => hierase (hh ▸ hid')
          exact mem_eraseId_of_ne s.running id id' (h.inflRun id' hin') hne
        · intro id' hid'
          have hh := h.runKeys id' (mem_of_mem_eraseId s.running id id' hid')
          rw [← hkeys] at hh
          exact hh
        · intro e he
          have hh := h.qKeys e he
          rw [← hkeys] at hh
          exact hh
        · intro id'
          show qCount id' s.queue + idCount id' s.pending +
            idCount id' (eraseId id s.inflight) ≤ 1
          have hh := h.ref1 id'
          have he := idCount_eraseId_le s.inflight id id'
          omega
        · intro id' hid' t' hl'
          have hne : id' ≠ id := fun hh => hpnot (hh ▸ hid')
          have hl2 : alookup id' (upsert id
              ({ (applyOutcome t oc now).1 with end_time := some now }) s.tasks)
              = some t' := hl'
          rw [alookup_upsert_ne s.tasks id id' _ hne] at hl2
          exact h.pendSched id' hid' t' hl2
        · intro id' hid' t' hl'
          have hin' := mem_of_mem_eraseId s.inflight id id' hid'
          have hne : id' ≠ id := fun hh => hierase (hh ▸ hid')
          have hl2 : alookup id' (upsert id
              ({ (applyOutcome t oc now).1 with end_time := some now }) s.tasks)
              = some t' := hl'
          rw [alookup_upsert_ne s.tasks id id' _ hne] at hl2
          exact h.inflRunning id' hin' t' hl2
        · intro id' t' hl' hst'
          rcases alookup_upsert_cases s.tasks id id' _ t' hl' with ⟨hEq, hT⟩ | ⟨hne, hl2⟩
          · rw [hT] at hst'
            exact absurd hst' (applyOutcome_status_ne_running t oc now)
          · exact mem_eraseId_of_ne s.inflight id id' (h.runningInfl id' t' hl2 hst') hne
        · intro e he t' hl'
          have hne : e.id ≠ id := hqne e he
          have hl2 : alookup e.id (upsert id
              ({ (applyOutcome t oc now).1 with end_time := some now }) s.tasks)
              = some t' := hl'
          rw [alookup_upsert_ne s.tasks id e.id _ hne] at hl2
          exact h.qStat e he t' hl2
        · intro id' hid' t' hl'
          have hne : id' ≠ id := fun hh => hrerase (hh ▸ hid')
          have hrun' := mem_of_mem_eraseId s.running id id' hid'
          have hl2 : alookup id' (upsert id
              ({ (applyOutcome t oc now).1 with end_time := some now }) s.tasks)
              = some t' := hl'
          rw [alookup_upsert_ne s.tasks id id' _ hne] at hl2
          exact h.runNotComp id' hrun' t' hl2
        · intro id' t' hl'
          rcases alookup_upsert_cases s.tasks id id' _ t' hl' with ⟨_, hT⟩ | ⟨_, hl2⟩
          · rw [hT]
            rcases applyOutcome_statLegal t oc now with hh | hh | hh
            · exact Or.inr (Or.inr (Or.inl hh))
            · exact Or.inr (Or.inr (Or.inr (Or.inl hh)))
            · exact Or.inl hh
          · exact h.statLegal id' t' hl2
        · intro id' t' hl' hst'
          rcases alookup_upsert_cases s.tasks id id' _ t' hl' with ⟨_, hT⟩ | ⟨_, hl2⟩
          · rw [hT] at hst' ⊢
            exact applyOutcome_failed_error t oc now hst'
          · exact h.failErr id' t' hl2 hst'
        · intro id' t' hl' hst'
          rcases alookup_upsert_cases s.tasks id id' _ t' hl' with ⟨_, hT⟩ | ⟨_, hl2⟩
          · rw [hT] at hst' ⊢
            exact applyOutcome_completed_result t oc now hst'
          · exact h.compRes id' t' hl2 hst'
      | some e2 =>
        rcases applyOutcome_entry_inv t oc now e2 hr2 with ⟨he2, hsched1⟩
        have he2id : e2.id = id := by
          rw [he2]
          show (applyOutcome t oc now).1.task_id = id
          rw [applyOutcome_task_id]
          exact h.keyed id t hl
        refine ⟨?_, ?_, ?_, ?_, ?_, ?_, ?_, ?_, ?_, ?_, ?_, ?_, ?_, ?_, ?_, ?_, ?_⟩
        · exact hkeys ▸ h.ndKeys
        · exact eraseId_nodup s.running id h.ndRun
        · exact le_trans (length_eraseId_le s.running id) h.cap
        · exact keyed_upsert s.tasks id _ h.keyed ht2id
        · intro id' hid'
          have hne : id' ≠ id := fun hh => hpnot (hh ▸ hid')
          exact mem_eraseId_of_ne s.running id id' (h.pendRun id' hid') hne
        · intro id' hid'
          have hin' := mem_of_mem_eraseId s.inflight id id' hid'
          have hne : id' ≠ id := fun hh => hierase (hh ▸ hid')
          exact mem_eraseId_of_ne s.running id id' (h.inflRun id' hin') hne
        · intro id' hid'
          have hh := h.runKeys id' (mem_of_mem_eraseId s.running id id' hid')
          rw [← hkeys] at hh
          exact hh
        · intro e he
          rcases List.mem_append.1 he with he | he
          · have hh := h.qKeys e he
            rw [← hkeys] at hh
            exact hh
          · have hee : e = e2 := by simpa using he
            rw [hee, he2id]
            have hh := hmem
            rw [← hkeys] at hh
            exact hh
        · intro id'
          show qCount id' (s.queue ++ [e2]) + idCount id' s.pending +
            idCount id' (eraseId id s.inflight) ≤ 1
          have hh := h.ref1 id'
          have hnil : qCount id' ([] : List Entry) = 0 := rfl
          rw [qCount_append, qCount_cons]
          by_cases hid : id' = id
          · subst hid
            rw [if_pos he2id]
            omega
          · rw [if_neg (fun hh' : e2.id = id' => hid (by rw [← hh']; exact he2id))]
            have he := idCount_eraseId_le s.inflight id id'
            omega
        · intro id' hid' t' hl'
          have hne : id' ≠ id := fun hh => hpnot (hh ▸ hid')
          have hl2 : alookup id' (upsert id
              ({ (applyOutcome t oc now).1 with end_time := some now }) s.tasks)
              = some t' := hl'
          rw [alookup_upsert_ne s.tasks id id' _ hne] at hl2
          exact h.pendSched id' hid' t' hl2
        · intro id' hid' t' hl'
          have hin' := mem_of_mem_eraseId s.inflight id id' hid'
          have hne : id' ≠ id := fun hh => hierase (hh ▸ hid')
          have hl2 : alookup id' (upsert id
              ({ (applyOutcome t oc now).1 with end_time := some now }) s.tasks)
              = some t' := hl'
          rw [alookup_upsert_ne s.tasks id id' _ hne] at hl2
          exact h.inflRunning id' hin' t' hl2
        · intro id' t' hl' hst'
          rcases alookup_upsert_cases s.tasks id id' _ t' hl' with ⟨hEq, hT⟩ | ⟨hne, hl2⟩
          · rw [hT] at hst'
            exact absurd hst' (applyOutcome_status_ne_running t oc now)
          · exact mem_eraseId_of_ne s.inflight id id' (h.runningInfl id' t' hl2 hst') hne
        · intro e he t' hl'
          rcases List.mem_append.1 he with he | he
          · have hne : e.id ≠ id := hqne e he
            have hl2 : alookup e.id (upsert id
                ({ (applyOutcome t oc now).1 with end_time := some now }) s.tasks)
                = some t' := hl'
            rw [alookup_upsert_ne s.tasks id e.id _ hne] at hl2
            exact h.qStat e he t' hl2
          · have hee : e = e2 := by simpa using he
            subst hee
            have hl2 : alookup e.id (upsert id
                ({ (applyOutcome t oc now).1 with end_time := some now }) s.tasks)
                = some t' := hl'
            rw [he2id, alookup_upsert_self] at hl2
            injection hl2 with hEq
            rw [← hEq]
            exact Or.inl hsched1
        · intro id' hid' t' hl'
          have hne : id' ≠ id := fun hh => hrerase (hh ▸ hid')
          have hrun' := mem_of_mem_eraseId s.running id id' hid'
          have hl2 : alookup id' (upsert id
              ({ (applyOutcome t oc now).1 with end_time := some now }) s.tasks)
              = some t' := hl'
          rw [alookup_upsert_ne s.tasks id id' _ hne] at hl2
          exact h.runNotComp id' hrun' t' hl2
        · intro id' t' hl'
          rcases alookup_upsert_cases s.tasks id id' _ t' hl' with ⟨_, hT⟩ | ⟨_, hl2⟩
          · rw [hT]
            rcases applyOutcome_statLegal t oc now with hh | hh | hh
            · exact Or.inr (Or.inr (Or.inl hh))
            · exact Or.inr (Or.inr (Or.inr (Or.inl hh)))
            · exact Or.inl hh
          · exact h.statLegal id' t' hl2
        · intro id' t' hl' hst'
          rcases alookup_upsert_cases s.tasks id id' _ t' hl' with ⟨_, hT⟩ | ⟨_, hl2⟩
          · rw [hT] at hst' ⊢
            exact applyOutcome_failed_error t oc now hst'
          · exact h.failErr id' t' hl2 hst'
        · intro id' t' hl' hst'
          rcases alookup_upsert_cases s.tasks id id' _ t' hl' with ⟨_, hT⟩ | ⟨_, hl2⟩
          · rw [hT] at hst' ⊢
            exact applyOutcome_completed_result t oc now hst'
          · exact h.compRes id' t' hl2 hst'
  · exact h

theorem mem_of_mem_foldl_eraseId (ids l : List String) (x : String)
    (h : x ∈ ids.foldl (fun acc id => eraseId id acc) l) : x ∈ l := by
  induction ids generalizing l with
  | nil => exact h
  | cons a rest ih =>
    rw [List.foldl_cons] at h
    exact mem_of_mem_eraseId l a x (ih (eraseId a l) h)

theorem foldl_eraseId_nodup (ids l : List String) (h : l.Nodup) :
    (ids.foldl (fun acc id => eraseId id acc) l).Nodup := by
  induction ids generalizing l with
  | nil => exact h
  | cons a rest ih =>
    rw [List.foldl_cons]
    exact ih (eraseId a l) (eraseId_nodup l a h)

theorem foldl_eraseId_length_le (ids l : List String) :
    (ids.foldl (fun acc id => eraseId id acc) l).length ≤ l.length := by
  induction ids generalizing l with
  | nil => exact le_refl _
  | cons a rest ih =>
    rw [List.foldl_cons]
    exact le_trans (ih (eraseId a l)) (length_eraseId_le l a)

theorem shutdown_status_cancelled (s : SchedState) (now : Int) (k : String) (t' : Task)
    (hk : k ∈ s.running)
    (hl : alookup k (s.inflight.foldl (setEnded now)
      (s.running.foldl setCancelled s.tasks)) = some t') :
    t'.status = "cancelled" := by
  by_cases hik : k ∈ s.inflight
  · rw [alookup_foldl_setEnded_mem s.inflight _ k now hik,
      alookup_foldl_setCancelled_mem s.running s.tasks k hk] at hl
    cases hbase : alookup k s.tasks with
    | none =>
      rw [hbase] at hl
      exact Option.noConfusion hl
    | some t0 =>
      rw [hbase] at hl
      injection hl with hEq
      rw [← hEq]
  · rw [alookup_foldl_setEnded_not_mem s.inflight _ k now hik,
      alookup_foldl_setCancelled_mem s.running s.tasks k hk] at hl
    cases hbase : alookup k s.tasks with
    | none =>
      rw [hbase] at hl
      exact Option.noConfusion hl
    | some t0 =>
      rw [hbase] at hl
      injection hl with hEq
      rw [← hEq]

theorem shutdown_lookup_not_mem (s : SchedState) (now : Int) (k : String)
    (hk : k ∉ s.running) (hik : k ∉ s.inflight) :
    alookup k (s.inflight.foldl (setEnded now)
      (s.running.foldl setCancelled s.tasks)) = alookup k s.tasks := by
  rw [alookup_foldl_setEnded_not_mem s.inflight _ k now hik,
    alookup_foldl_setCancelled_not_mem s.running s.tasks k hk]

theorem inv_shutdown (s : SchedState) (now : Int) (h : Inv s) :
    Inv (applyEv (Ev.shutdown now) s) := by
  show Inv (shutdownStep s now)
  show Inv (doSave { s with
    isRunning := false,
    tasks := s.inflight.foldl (setEnded now) (s.running.foldl setCancelled s.tasks),
    running := s.inflight.foldl (fun l id => eraseId id l) s.running,
    pending := [],
    inflight := [] })
  have hkeys : keys (s.inflight.foldl (setEnded now)
      (s.running.foldl setCancelled s.tasks)) = keys s.tasks := by
    rw [keys_foldl_setEnded, keys_foldl_setCancelled]
  refine ⟨?_, ?_, ?_, ?_, ?_, ?_, ?_, ?_, ?_, ?_, ?_, ?_, ?_, ?_, ?_, ?_, ?_⟩
  · exact hkeys ▸ h.ndKeys
  · exact foldl_eraseId_nodup s.inflight s.running h.ndRun
  · exact le_trans (foldl_eraseId_length_le s.inflight s.running) h.cap
  · exact keyed_foldl_setEnded s.inflight _ now (keyed_foldl_setCancelled s.running s.tasks h.keyed)
  · intro id' hid'
    exact absurd (show id' ∈ ([] : List String) from hid') (List.not_mem_nil id')
  · intro id' hid'
    exact absurd (show id' ∈ ([] : List String) from hid') (List.not_mem_nil id')
  · intro id' hid'
    have hh := h.runKeys id' (mem_of_mem_foldl_eraseId s.inflight s.running id' hid')
    rw [← hkeys] at hh
    exact hh
  · intro e he
    have hh := h.qKeys e he
    rw [← hkeys] at hh
    exact hh
  · intro id'
    show qCount id' s.queue + idCount id' ([] : List String) +
      idCount id' ([] : List String) ≤ 1
    have hh := h.ref1 id'
    have hnil : idCount id' ([] : List String) = 0 := rfl
    omega
  · intro id' hid' t' hl'
    exact absurd (show id' ∈ ([] : List String) from hid') (List.not_mem_nil id')
  · intro id' hid' t' hl'
    exact absurd (show id' ∈ ([] : List String) from hid') (List.not_mem_nil id')
  · intro id' t' hl' hst'
    exfalso
    by_cases hk : id' ∈ s.running
    · rw [shutdown_status_cancelled s now id' t' hk hl'] at hst'
      simp at hst'
    · have hik : id' ∉ s.inflight := fun hc => hk (h.inflRun id' hc)
      have hl2 : alookup id' (s.inflight.foldl (setEnded now)
        (s.running.foldl setCancelled s.tasks)) = some t' := hl'
      rw [shutdown_lookup_not_mem s now id' hk hik] at hl2
      exact hk (h.inflRun id' (h.runningInfl id' t' hl2 hst'))
  · intro e he t' hl'
    by_cases hk : e.id ∈ s.running
    · exact Or.inr (shutdown_status_cancelled s now e.id t' hk hl')
    · have hik : e.id ∉ s.inflight := fun hc => hk (h.inflRun e.id hc)
      have hl2 : alookup e.id (s.inflight.foldl (setEnded now)
        (s.running.foldl setCancelled s.tasks)) = some t' := hl'
      rw [shutdown_lookup_not_mem s now e.id hk hik] at hl2
      exact h.qStat e he t' hl2
  · intro id' hid' t' hl'
    have hk : id' ∈ s.running := mem_of_mem_foldl_eraseId s.inflight s.running id' hid'
    rw [shutdown_status_cancelled s now id' t' hk hl']
    simp
  · intro id' t' hl'
    by_cases hk : id' ∈ s.running
    · exact Or.inr (Or.inr (Or.inr (Or.inr (shutdown_status_cancelled s now id' t' hk hl'))))
    · have hik : id' ∉ s.inflight := fun hc => hk (h.inflRun id' hc)
      have hl2 : alookup id' (s.inflight.foldl (setEnded now)
        (s.running.foldl setCancelled s.tasks)) = some t' := hl'
      rw [shutdown_lookup_not_mem s now id' hk hik] at hl2
      exact h.statLegal id' t' hl2
  · intro id' t' hl' hst'
    by_cases hk : id' ∈ s.running
    · rw [shutdown_status_cancelled s now id' t' hk hl'] at hst'
      simp at hst'
    · have hik : id' ∉ s.inflight := fun hc => hk (h.inflRun id' hc)
      have hl2 : alookup id' (s.inflight.foldl (setEnded now)
        (s.running.foldl setCancelled s.tasks)) = some t' := hl'
      rw [shutdown_lookup_not_mem s now id' hk hik] at hl2
      exact h.failErr id' t' hl2 hst'
  · intro id' t' hl' hst'
    by_cases hk : id' ∈ s.running
    · rw [shutdown_status_cancelled s now id' t' hk hl'] at hst'
      simp at hst'
    · have hik : id' ∉ s.inflight := fun hc => hk (h.inflRun id' hc)
      have hl2 : alookup id' (s.inflight.foldl (setEnded now)
        (s.running.foldl setCancelled s.tasks)) = some t' := hl'
      rw [shutdown_lookup_not_mem s now id' hk hik] at hl2
      exact h.compRes id' t' hl2 hst'

/-- Per-event preservation of the master invariant (fresh ids at schedule
events). -/
theorem inv_applyEv (e : Ev) (s : SchedState) (h : Inv s)
    (hfresh : ∀ a, e = Ev.schedule a → a.task_id ∉ keys s.tasks) :
    Inv (applyEv e s) := by
  cases e with
  | start => exact inv_start s h
  | schedule a => exact inv_schedule s a h (hfresh a rfl)
  | cancel id now => exact inv_cancel s id now h
  | dispatch now => exact inv_dispatch s now h
  | execBegin id now => exact inv_execBegin s id now h
  | execEnd id oc now => exact inv_execEnd s id oc now h
  | shutdown now => exact inv_shutdown s now h

/-- The invariant holds along every well-formed trace. -/
theorem inv_runFrom (evs : List Ev) (s : SchedState) (h : Inv s)
    (hf : FreshEvs s evs) : Inv (runFrom s evs) := by
  induction evs generalizing s with
  | nil => exact h
  | cons e rest ih =>
    obtain ⟨hnd, hids⟩ := hf
    rw [schedIds_cons] at hnd hids
    have hfe : ∀ a, e = Ev.schedule a → a.task_id ∉ keys s.tasks := by
      intro a hea
      refine hids a.task_id ?_
      rw [hea]
      exact List.mem_append_left _ (List.mem_cons_self _ _)
    refine ih (applyEv e s) (inv_applyEv e s h hfe) ⟨(List.nodup_append.1 hnd).2.1, ?_⟩
    intro id hid hmem
    rcases keys_applyEv_subset e s id hmem with hmem' | hmem'
    · exact hids id (List.mem_append_right _ hid) hmem'
    · cases e with
      | schedule a =>
        have hida : id = a.task_id := by simpa [schedIds] using hmem'
        rcases List.nodup_append.1 hnd with ⟨_, _, hdisj⟩
        exact hdisj (List.mem_cons_self a.task_id []) (hida ▸ hid)
      | start => simp [schedIds] at hmem'
      | cancel id2 now => simp [schedIds] at hmem'
      | dispatch now => simp [schedIds] at hmem'
      | execBegin id2 now => simp [schedIds] at hmem'
      | execEnd id2 oc now => simp [schedIds] at hmem'
      | shutdown now => simp [schedIds] at hmem'

/-- The status transitions the code actually performs: spec §4.1 extended
with Scheduled → Failed (the missing-handler path fails the task before
ever marking it running) and Failed → Cancelled (shutdown re-labels a task
stranded in the running set by the missing-handler path). -/
def Allowed (a b : String) : Prop :=
  a = b ∨
  (a = "scheduled" ∧ (b = "running" ∨ b = "cancelled" ∨ b = "failed")) ∨
  (a = "running" ∧ (b = "completed" ∨ b = "failed" ∨ b = "scheduled" ∨ b = "cancelled")) ∨
  (a = "failed" ∧ b = "cancelled")

instance allowedDec (a b : String) : Decidable (Allowed a b) := by
  unfold Allowed
  infer_instance

theorem dispatchStep_tasks (s : SchedState) (now : Int) :
    (dispatchStep s now).tasks = s.tasks := by
  unfold dispatchStep
  split
  · rfl
  · split
    · rfl
    · split
      · rfl
      · split
        · rfl
        · split
          · rfl
          · split
            · rfl
            · rfl

theorem allowed_applyEv (e : Ev) (s : SchedState) (h : Inv s)
    (hfresh : ∀ a, e = Ev.schedule a → a.task_id ∉ keys s.tasks)
    (id : String) (t t' : Task)
    (h1 : alookup id s.tasks = some t)
    (h2 : alookup id (applyEv e s).tasks = some t') :
    Allowed t.status t'.status := by
  cases e with
  | start =>
    have h2' : alookup id s.tasks = some t' := h2
    rw [h1] at h2'
    injection h2' with hEq
    exact Or.inl (by rw [hEq])
  | schedule a =>
    have hne : id ≠ a.task_id := by
      intro hh
      exact hfresh a rfl (hh ▸ alookup_mem_keys s.tasks id t h1)
    have h2' : alookup id (upsert a.task_id (mkTask a) s.tasks) = some t' := h2
    rw [alookup_upsert_ne s.tasks a.task_id id (mkTask a) hne, h1] at h2'
    injection h2' with hEq
    exact Or.inl (by rw [hEq])
  | cancel id0 now =>
    revert h2
    show alookup id (cancelTask s id0 now).2.tasks = some t' → Allowed t.status t'.status
    unfold cancelTask
    split
    · intro h2
      rw [h1] at h2
      injection h2 with hEq
      exact Or.inl (by rw [hEq])
    · next t0 hl0 =>
      split
      · next hst0 =>
        have hcases : ∀ (u : Task), alookup id (upsert id0 u s.tasks) = some t' →
            u.status = "cancelled" → Allowed t.status t'.status := by
          intro u h2 hu
          rcases alookup_upsert_cases s.tasks id0 id u t' h2 with ⟨hEq, hT⟩ | ⟨hne, hl2⟩
          · subst hEq
            rw [hl0] at h1
            injection h1 with hEq1
            rw [← hEq1, hT, hu]
            rcases hst0 with hh | hh
            · exact Or.inr (Or.inl ⟨hh, Or.inr (Or.inl rfl)⟩)
            · exact Or.inr (Or.inr (Or.inl ⟨hh, Or.inr (Or.inr (Or.inr rfl))⟩))
          · rw [h1] at hl2
            injection hl2 with hEq
            exact Or.inl (by rw [hEq])
        split
        · intro h2
          exact hcases _ h2 rfl
        · split
          · intro h2
            exact hcases _ h2 rfl
          · intro h2
            exact hcases _ h2 rfl
      · intro h2
        rw [h1] at h2
        injection h2 with hEq
        exact Or.inl (by rw [hEq])
  | dispatch now =>
    have h2' : alookup id (dispatchStep s now).tasks = some t' := h2
    rw [dispatchStep_tasks s now, h1] at h2'
    injection h2' with hEq
    exact Or.inl (by rw [hEq])
  | execBegin id0 now =>
    revert h2
    show alookup id (execStart s id0 now).tasks = some t' → Allowed t.status t'.status
    unfold execStart
    split
    · next hp0 =>
      split
      · intro h2
        rw [h1] at h2
        injection h2 with hEq
        exact Or.inl (by rw [hEq])
      · next t0 hl0 =>
        have hsched0 : t0.status = "scheduled" := h.pendSched id0 hp0 t0 hl0
        split
        · intro h2
          rcases alookup_upsert_cases s.tasks id0 id _ t' h2 with ⟨hEq, hT⟩ | ⟨hne, hl2⟩
          · subst hEq
            rw [hl0] at h1
            injection h1 with hEq1
            rw [← hEq1, hT, hsched0]
            exact Or.inr (Or.inl ⟨rfl, Or.inl rfl⟩)
          · rw [h1] at hl2
            injection hl2 with hEq
            exact Or.inl (by rw [hEq])
        · intro h2
          rcases alookup_upsert_cases s.tasks id0 id _ t' h2 with ⟨hEq, hT⟩ | ⟨hne, hl2⟩
          · subst hEq
            rw [hl0] at h1
            injection h1 with hEq1
            rw [← hEq1, hT, hsched0]
            exact Or.inr (Or.inl ⟨rfl, Or.inr (Or.inr rfl)⟩)
          · rw [h1] at hl2
            injection hl2 with hEq
            exact Or.inl (by rw [hEq])
    · intro h2
      rw [h1] at h2
      injection h2 with hEq
      exact Or.inl (by rw [hEq])
  | execEnd id0 oc now =>
    revert h2
    show alookup id (execFinish s id0 oc now).tasks = some t' → Allowed t.status t'.status
    unfold execFinish
    split
    · next hin0 =>
      split
      · intro h2
        rw [h1] at h2
        injection h2 with hEq
        exact Or.inl (by rw [hEq])
      · next t0 hl0 =>
        have hrun0 : t0.status = "running" := h.inflRunning id0 hin0 t0 hl0
        intro h2
        rcases alookup_upsert_cases s.tasks id0 id _ t' h2 with ⟨hEq, hT⟩ | ⟨hne, hl2⟩
        · subst hEq
          rw [hl0] at h1
          injection h1 with hEq1
          rw [← hEq1, hT]
          have hst' : ({ (applyOutcome t0 oc now).1 with end_time := some now } : Task).status
              = (applyOutcome t0 oc now).1.status := rfl
          rw [hst', hrun0]
          rcases applyOutcome_statLegal t0 oc now with hh | hh | hh
          · exact Or.inr (Or.inr (Or.inl ⟨rfl, Or.inl hh⟩))
          · exact Or.inr (Or.inr (Or.inl ⟨rfl, Or.inr (Or.inl hh)⟩))
          · exact Or.inr (Or.inr (Or.inl ⟨rfl, Or.inr (Or.inr (Or.inl hh))⟩))
        · rw [h1] at hl2
          injection hl2 with hEq
          exact Or.inl (by rw [hEq])
    · intro h2
      rw [h1] at h2
      injection h2 with hEq
      exact Or.inl (by rw [hEq])
  | shutdown now =>
    have h2' : alookup id (s.inflight.foldl (setEnded now)
        (s.running.foldl setCancelled s.tasks)) = some t' := h2
    by_cases hk : id ∈ s.running
    · have hcanc := shutdown_status_cancelled s now id t' hk h2'
      have hnotcomp : t.status ≠ "completed" := h.runNotComp id hk t h1
      rcases h.statLegal id t h1 with hh | hh | hh | hh | hh
      · rw [hcanc, hh]
        exact Or.inr (Or.inl ⟨rfl, Or.inr (Or.inl rfl)⟩)
      · rw [hcanc, hh]
        exact Or.inr (Or.inr (Or.inl ⟨rfl, Or.inr (Or.inr (Or.inr rfl))⟩))
      · exact absurd hh hnotcomp
      · rw [hcanc, hh]
        exact Or.inr (Or.inr (Or.inr ⟨rfl, rfl⟩))
      · rw [hcanc, hh]
        exact Or.inl rfl
    · have hik : id ∉ s.inflight := fun hc => hk (h.inflRun id hc)
      rw [shutdown_lookup_not_mem s now id hk hik, h1] at h2'
      injection h2' with hEq
      exact Or.inl (by rw [hEq])

theorem keys_runFrom_subset (evs : List Ev) (s : SchedState) (k : String)
    (h : k ∈ keys (runFrom s evs).tasks) : k ∈ keys s.tasks ∨ k ∈ schedIds evs := by
  induction evs generalizing s with
  | nil => exact Or.inl h
  | cons e rest ih =>
    rcases ih (applyEv e s) h with h' | h'
    · rcases keys_applyEv_subset e s k h' with h'' | h''
      · exact Or.inl h''
      · right
        rw [schedIds_cons]
        exact List.mem_append_left _ h''
    · right
      rw [schedIds_cons]
      exact List.mem_append_right _ h'

theorem run_append (n : Nat) (hs : List String) (evs : List Ev) (e : Ev) :
    run n hs (evs ++ [e]) = applyEv e (run n hs evs) :=
  runFrom_append (initState n hs) evs e

/-- C2 (amended): provided no task id is scheduled twice, every status
change performed by any scheduler operation (schedule, dispatch, execute,
retry, cancel, shutdown) follows the §4.1 state machine extended with the
two transitions the code actually adds — a task whose type has no handler
goes Scheduled → Failed without ever being Running, and shutdown moves such
a task, left stranded in the running set, from Failed to Cancelled.
Completed is never left, and Completed is reached only from Running. -/
theorem status_transitions_sound (n : Nat) (hs : List String) (evs : List Ev) (e : Ev)
    (hwf : FreshEvs (initState n hs) (evs ++ [e])) (id : String) (t t' : Task)
    (h1 : alookup id (run n hs evs).tasks = some t)
    (h2 : alookup id (run n hs (evs ++ [e])).tasks = some t') :
    Allowed t.status t'.status := by
  obtain ⟨hnd, hids⟩ := hwf
  rw [schedIds_append] at hnd hids
  have hfPre : FreshEvs (initState n hs) evs :=
    ⟨(List.nodup_append.1 hnd).1, fun id' hid' => hids id' (List.mem_append_left _ hid')⟩
  have hinv : Inv (run n hs evs) :=
    inv_runFrom evs (initState n hs) (inv_initState n hs) hfPre
  have hfresh : ∀ a, e = Ev.schedule a → a.task_id ∉ keys (run n hs evs).tasks := by
    intro a hea hmem
    rcases keys_runFrom_subset evs (initState n hs) a.task_id hmem with hh | hh
    · simp [initState, keys] at hh
    · rcases List.nodup_append.1 hnd with ⟨_, _, hdisj⟩
      refine hdisj hh ?_
      rw [hea]
      exact List.mem_cons_self _ _
  rw [run_append] at h2
  exact allowed_applyEv e (run n hs evs) hinv hfresh id t t' h1 h2

theorem alookup_of_mem_nodup (ts : List (String × Task)) (k : String) (t : Task)
    (hmem : (k, t) ∈ ts) (hnd : (keys ts).Nodup) : alookup k ts = some t := by
  induction ts with
  | nil => simp at hmem
  | cons p rest ih =>
    obtain ⟨k0, t0⟩ := p
    rw [keys_cons] at hnd
    rcases List.nodup_cons.1 hnd with ⟨hk0, hndr⟩
    rcases List.mem_cons.1 hmem with hh | hh
    · injection hh with hh1 hh2
      subst hh1
      subst hh2
      simp [alookup]
    · have hkmem : k ∈ keys rest := List.mem_map_of_mem Prod.fst hh
      have hkne : ¬ k0 = k := fun hh' => hk0 (hh' ▸ hkmem)
      simp [alookup, hkne, ih hh hndr]

/-- Number of tasks whose status is "running". -/
def runningCount (s : SchedState) : Nat :=
  (s.tasks.filter (fun p => p.2.status = "running")).length

theorem maxConc_applyEv (e : Ev) (s : SchedState) :
    (applyEv e s).maxConc = s.maxConc := by
  cases e with
  | start => rfl
  | schedule a => rfl
  | cancel id now =>
    show (cancelTask s id now).2.maxConc = s.maxConc
    unfold cancelTask
    split
    · rfl
    · split
      · split
        · rfl
        · split
          · rfl
          · rfl
      · rfl
  | dispatch now =>
    show (dispatchStep s now).maxConc = s.maxConc
    unfold dispatchStep
    split
    · rfl
    · split
      · rfl
      · split
        · rfl
        · split
          · rfl
          · split
            · rfl
            · split
              · rfl
              · rfl
  | execBegin id now =>
    show (execStart s id now).maxConc = s.maxConc
    unfold execStart
    split
    · split
      · rfl
      · split
        · rfl
        · rfl
    · rfl
  | execEnd id oc now =>
    show (execFinish s id oc now).maxConc = s.maxConc
    unfold execFinish
    split
    · split
      · rfl
      · rfl
    · rfl
  | shutdown now => rfl

theorem maxConc_run (n : Nat) (hs : List String) (evs : List Ev) :
    (run n hs evs).maxConc = n := by
  suffices hgen : ∀ (evs : List Ev) (s : SchedState), (runFrom s evs).maxConc = s.maxConc by
    exact hgen evs (initState n hs)
  intro evs
  induction evs with
  | nil => intro s; rfl
  | cons e rest ih =>
    intro s
    rw [show runFrom s (e :: rest) = runFrom (applyEv e s) rest from rfl, ih (applyEv e s),
      maxConc_applyEv]

/-- C6: with `max_concurrent_tasks = n`, no reachable state of the step
relation (without duplicate scheduling) has more than n tasks with status
"running"; and the worker refuses to dequeue and start anything while the
`running_tasks` key set already holds `max_concurrent_tasks` or more
entries. -/
theorem concurrency_bound (n : Nat) (hs : List String) (evs : List Ev)
    (hwf : FreshEvs (initState n hs) evs) :
    runningCount (run n hs evs) ≤ n ∧
    (∀ (s : SchedState) (now : Int), s.maxConc ≤ s.running.length →
      dispatchStep s now = s) := by
  constructor
  · have hinv : Inv (run n hs evs) :=
      inv_runFrom evs (initState n hs) (inv_initState n hs) hwf
    set st := run n hs evs with hst
    have hsub : ∀ k ∈ keys (st.tasks.filter (fun p => p.2.status = "running")),
        k ∈ st.running := by
      intro k hk
      rcases List.mem_map.1 hk with ⟨⟨k0, t0⟩, hmem, hfst⟩
      rcases List.mem_filter.1 hmem with ⟨hmem0, hstat⟩
      have hl : alookup k0 st.tasks = some t0 := alookup_of_mem_nodup st.tasks k0 t0 hmem0 hinv.ndKeys
      have hrun : t0.status = "running" := by simpa using hstat
      have hinfl := hinv.runningInfl k0 t0 hl hrun
      rw [← hfst]
      exact hinv.inflRun k0 hinfl
    have hnd : (keys (st.tasks.filter (fun p => p.2.status = "running"))).Nodup := by
      have hsubl : List.Sublist
          ((st.tasks.filter (fun p => p.2.status = "running")).map Prod.fst)
          (st.tasks.map Prod.fst) :=
        (List.filter_sublist st.tasks).map Prod.fst
      exact hinv.ndKeys.sublist hsubl
    have hlen : runningCount st ≤ st.running.length := by
      have h1 : runningCount st =
          (keys (st.tasks.filter (fun p => p.2.status = "running"))).length := by
        unfold runningCount keys
        rw [List.length_map]
      rw [h1]
      have h2 : (keys (st.tasks.filter (fun p => p.2.status = "running"))).toFinset.card =
          (keys (st.tasks.filter (fun p => p.2.status = "running"))).length :=
        List.toFinset_card_of_nodup hnd
      have h3 : (keys (st.tasks.filter (fun p => p.2.status = "running"))).toFinset ⊆
          st.running.toFinset := by
        intro x hx
        rw [List.mem_toFinset] at hx ⊢
        exact hsub x hx
      have h4 := Finset.card_le_card h3
      have h5 := st.running.toFinset_card_le
      omega
    have hcap := hinv.cap
    have hmax : st.maxConc = n := maxConc_run n hs evs
    omega
  · intro s now hcap
    unfold dispatchStep
    by_cases hr : s.isRunning = false
    · rw [if_pos hr]
    · rw [if_neg hr, if_pos hcap]

/-- C8 (amended): on every reachable state (without duplicate scheduling) a
Failed task always carries an error and a Completed task always carries a
result; mutual exclusivity, however, does not hold, because the success
path never clears a stale error from an earlier failed attempt. -/
theorem terminal_payload_fields (n : Nat) (hs : List String) (evs : List Ev)
    (hwf : FreshEvs (initState n hs) evs) (id : String) (t : Task)
    (hl : alookup id (run n hs evs).tasks = some t) :
    (t.status = "failed" → t.error ≠ none) ∧
    (t.status = "completed" → t.result ≠ none) := by
  have hinv : Inv (run n hs evs) :=
    inv_runFrom evs (initState n hs) (inv_initState n hs) hwf
  exact ⟨hinv.failErr id t hl, hinv.compRes id t hl⟩

/-! ### Witness instances -/

theorem keyed_run (n : Nat) (hs : List String) (evs : List Ev) :
    KeyedTasks (run n hs evs) := by
  refine @runFrom_invariant KeyedTasks keyed_applyEv evs (initState n hs) ?_
  intro k t hl
  simp [initState, alookup] at hl

/-- Concrete instance of C1. -/
theorem retry_count_le_max_retries_witness :
    (mkTask ⟨"w1", "w", [], 0, 1, 2, 5, 60, none⟩).retry_count ≤
      (mkTask ⟨"w1", "w", [], 0, 1, 2, 5, 60, none⟩).max_retries ∧
    (applyOutcome (mkTask ⟨"w1", "w", [], 0, 1, 2, 5, 60, none⟩) Outcome.timeout 10).1.status
      = "scheduled" ∧
    (applyOutcome { mkTask ⟨"w2", "w", [], 0, 1, 0, 5, 60, none⟩ with
      status := "running" } Outcome.timeout 10).1.status = "failed" := by
  refine ⟨?_, ?_, ?_⟩
  · exact retry_count_le_max_retries.1 2 ["w"]
      [Ev.start, Ev.schedule ⟨"w1", "w", [], 0, 1, 2, 5, 60, none⟩] "w1"
      (mkTask ⟨"w1", "w", [], 0, 1, 2, 5, 60, none⟩) (by decide)
  · exact (retry_count_le_max_retries.2.1 (mkTask ⟨"w1", "w", [], 0, 1, 2, 5, 60, none⟩)
      Outcome.timeout 10 (Or.inl rfl) (by decide)).2.1
  · exact (retry_count_le_max_retries.2.2 ({ mkTask ⟨"w2", "w", [], 0, 1, 0, 5, 60, none⟩ with
      status := "running" }) Outcome.timeout 10 (Or.inl rfl) (by decide)).1

/-- Concrete instance of C2 (amended). -/
theorem status_transitions_sound_witness : Allowed "scheduled" "scheduled" :=
  status_transitions_sound 2 ["w"]
    [Ev.start, Ev.schedule ⟨"v1", "w", [], 0, 1, 3, 5, 60, none⟩] (Ev.dispatch 5)
    (by refine ⟨by decide, ?_⟩; intro id hid; simp [schedIds] at hid; simp [hid, run, runFrom, initState, applyEv, scheduleTask, doSave, keys, mkTask, upsert, mkEntry])
    "v1" (mkTask ⟨"v1", "w", [], 0, 1, 3, 5, 60, none⟩)
    (mkTask ⟨"v1", "w", [], 0, 1, 3, 5, 60, none⟩) (by decide) (by decide)

/-- Concrete instance of C4. -/
theorem queue_order_dispatch_witness :
    entryLt ⟨1, 5, "a"⟩ ⟨2, 3, "b"⟩ ∧
    (entryLt ⟨1, 5, "a"⟩ ⟨1, 5, "b"⟩ ↔ ("a" : String) < "b") ∧
    popMin [⟨2, 3, "b"⟩, ⟨1, 5, "a"⟩] ≠ some ⟨2, 3, "b"⟩ :=
  ⟨queue_order_dispatch.1 ⟨1, 5, "a"⟩ ⟨2, 3, "b"⟩ (by decide),
   queue_order_dispatch.2.2.1 ⟨1, 5, "a"⟩ ⟨1, 5, "b"⟩ rfl rfl,
   queue_order_dispatch.2.2.2.2.2.2 [⟨2, 3, "b"⟩, ⟨1, 5, "a"⟩] ⟨1, 5, "a"⟩ ⟨2, 3, "b"⟩ 10
     (by decide) (by decide) (by decide) (by decide)⟩

/-- A fully-populated task for the round-trip witness. -/
def tC5 : Task :=
  { task_id := "t", task_type := "ty", params := [("k", "v")], schedule_time := 5,
    priority := 2, max_retries := 3, retry_delay := 60, timeout := 120,
    callback_url := some "http://x", status := "failed", retry_count := 1,
    start_time := some 1, end_time := some 2, result := some "r", error := some "e" }

/-- A scheduler with one scheduled and one running task, for the reload
witness. -/
def c5S : SchedState :=
  { tasks := [("a", mkTask ⟨"a", "w", [], 3, 1, 3, 5, 60, none⟩),
              ("b", { mkTask ⟨"b", "w", [], 4, 1, 3, 5, 60, none⟩ with
                status := "running", start_time := some 9 })],
    queue := [], maxConc := 2, running := [], handlers := [], isRunning := false,
    saved := [], pending := [], inflight := [], callbacks := [] }

/-- Concrete instance of C5. -/
theorem roundtrip_save_load_witness :
    Task.from_dict (Task.to_dict tC5) = some tC5 ∧
    (loadTasks (initState 2 []) (dumpTasks c5S.tasks)).tasks = c5S.tasks ∧
    (loadTasks (initState 2 []) (dumpTasks c5S.tasks)).queue =
      (c5S.tasks.filter (fun p => p.2.status = "scheduled")).map (fun p => mkEntry p.2) :=
  roundtrip_save_load tC5 c5S 2 [] (by decide)

/-- Concrete instance of C6. -/
theorem concurrency_bound_witness :
    runningCount (run 1 ["w"] [Ev.start, Ev.schedule ⟨"c1", "w", [], 0, 1, 3, 5, 60, none⟩,
      Ev.dispatch 5, Ev.execBegin "c1" 5]) ≤ 1 ∧
    dispatchStep (run 1 ["w"] [Ev.start, Ev.schedule ⟨"c1", "w", [], 0, 1, 3, 5, 60, none⟩,
      Ev.dispatch 5]) 6 =
      run 1 ["w"] [Ev.start, Ev.schedule ⟨"c1", "w", [], 0, 1, 3, 5, 60, none⟩,
        Ev.dispatch 5] :=
  ⟨(concurrency_bound 1 ["w"] [Ev.start, Ev.schedule ⟨"c1", "w", [], 0, 1, 3, 5, 60, none⟩,
      Ev.dispatch 5, Ev.execBegin "c1" 5] (by decide)).1,
   (concurrency_bound 1 ["w"] [] (by decide)).2
     (run 1 ["w"] [Ev.start, Ev.schedule ⟨"c1", "w", [], 0, 1, 3, 5, 60, none⟩,
       Ev.dispatch 5]) 6 (by decide)⟩

/-- The state for the cancel witness: one scheduled, queued task. -/
def c7S : SchedState :=
  run 2 ["w"] [Ev.start, Ev.schedule ⟨"d1", "w", [], 0, 1, 3, 5, 60, none⟩]

/-- Concrete instance of C7. -/
theorem cancel_semantics_witness :
    (cancelTask c7S "d1" 9).1 = true ∧
    statusOf (cancelTask c7S "d1" 9).2 "d1" = some "cancelled" ∧
    dispatchStep (cancelTask c7S "d1" 9).2 9 =
      { (cancelTask c7S "d1" 9).2 with
        queue := erase1 ⟨1, 0, "d1"⟩ (cancelTask c7S "d1" 9).2.queue } := by
  have h1 : (cancelTask c7S "d1" 9).1 = true :=
    (cancel_semantics c7S "d1" 9).1.2
      ⟨mkTask ⟨"d1", "w", [], 0, 1, 3, 5, 60, none⟩, by decide, Or.inl (by decide)⟩
  refine ⟨h1, (cancel_semantics c7S "d1" 9).2.2.1 h1, ?_⟩
  exact (cancel_semantics (cancelTask c7S "d1" 9).2 "d1" 9).2.2.2 ⟨1, 0, "d1"⟩
    ({ mkTask ⟨"d1", "w", [], 0, 1, 3, 5, 60, none⟩ with status := "cancelled" })
    (by decide) (by decide) (by decide) (by decide) (by decide)

/-- The failed task of the C8 witness trace. -/
def tC8w : Task :=
  { mkTask ⟨"r2", "w", [], 0, 1, 0, 5, 60, none⟩ with
    status := "failed", start_time := some 5, end_time := some 6, error := some "boom" }

/-- Concrete instance of C8 (amended). -/
theorem terminal_payload_fields_witness : tC8w.error ≠ none :=
  (terminal_payload_fields 2 ["w"]
    [Ev.start, Ev.schedule ⟨"r2", "w", [], 0, 1, 0, 5, 60, none⟩, Ev.dispatch 5,
     Ev.execBegin "r2" 5, Ev.execEnd "r2" (Outcome.failure "boom") 6]
    (by refine ⟨by decide, ?_⟩; intro id hid; simp [schedIds] at hid; simp [hid, initState, keys])
    "r2" tC8w (by decide)).1 rfl

/-- The state for the C9 witness: a dispatched task with an unregistered
type. -/
def c9S : SchedState :=
  run 2 ["w"] [Ev.start, Ev.schedule ⟨"x1", "nope", [], 0, 1, 3, 5, 60, none⟩, Ev.dispatch 5]

/-- Concrete instance of C9. -/
theorem noHandler_leaks_slot_witness :
    "x1" ∈ (execStart c9S "x1" 5).running ∧
    "x1" ∈ (runFrom (execStart c9S "x1" 5) [Ev.dispatch 6, Ev.shutdown 7]).running :=
  ⟨(noHandler_leaks_running_slot c9S "x1" 5 (mkTask ⟨"x1", "nope", [], 0, 1, 3, 5, 60, none⟩)
      (by decide) (by decide) (by decide) (by decide)
      (keyed_run 2 ["w"] [Ev.start, Ev.schedule ⟨"x1", "nope", [], 0, 1, 3, 5, 60, none⟩,
        Ev.dispatch 5])
      (by decide) (by decide) (by decide)).2.2.2.1,
   (noHandler_leaks_running_slot c9S "x1" 5 (mkTask ⟨"x1", "nope", [], 0, 1, 3, 5, 60, none⟩)
      (by decide) (by decide) (by decide) (by decide)
      (keyed_run 2 ["w"] [Ev.start, Ev.schedule ⟨"x1", "nope", [], 0, 1, 3, 5, 60, none⟩,
        Ev.dispatch 5])
      (by decide) (by decide) (by decide)).2.2.2.2 [Ev.dispatch 6, Ev.shutdown 7] (by decide)⟩

/-- The state for the duplicate-schedule witness: "z1" already stored. -/
def c10S : SchedState :=
  run 2 ["w"] [Ev.start, Ev.schedule ⟨"z1", "w", [], 0, 1, 3, 5, 60, none⟩]

/-- The replacement task of the C10 witness. -/
def t10 : Task := mkTask ⟨"z1", "w", [], 100, 7, 1, 9, 30, some "http://dup"⟩

/-- Concrete instance of C10. -/
theorem schedule_duplicate_witness :
    (scheduleTask c10S t10).1 = "z1" ∧
    alookup "z1" (scheduleTask c10S t10).2.tasks = some t10 ∧
    qCount "z1" (scheduleTask c10S t10).2.queue = qCount "z1" c10S.queue + 1 ∧
    keys (scheduleTask c10S t10).2.tasks = keys c10S.tasks :=
  schedule_duplicate_replaces c10S t10 (by decide)

end TaskSchedulerModel
